import Mathlib

/-!
# cli-snake: the simulation tick of `cmd/snake.go`

A shallow embedding of the game state (`Board`, `Snake`, the pause flag and the
random source) and of the functions that make up one tick (`Snake.act`), with
the properties of the tick proved about the embedding.

Conventions of the embedding:

* Go `int` is `Int` with 64-bit two's-complement addition (`addInt`).
* `Board.Grid` is created once by `initializeBoard` as `GridSize` rows of
  `GridSize` bytes and never re-sliced, so it is a total map on
  `Fin GridSize × Fin GridSize`; an access with a coordinate outside
  `[0, GridSize)` is the Go run-time error "index out of range".
* `rand.Intn(n)` returns a value of `[0, n)`; the values the program will draw
  are carried in the state as a list (`World.rand`).
* `endGame` prints the score and calls `os.Exit`; the state at that moment is
  recorded in `Outcome.gameOver`.
-/

namespace CliSnake

/-! ## Data model -/

/-- GridSize is the size of the grid. -/
abbrev GridSize : Nat := 20

/-- SnakeCapacity is the max snake size. -/
abbrev SnakeCapacity : Nat := GridSize * GridSize - 1

/-- Go `int` addition on a 64-bit target: the sum wraps around in two's complement. -/
def addInt (a b : Int) : Int :=
  (a + b + 9223372036854775808) % 18446744073709551616 - 9223372036854775808

/-- Location struct: a pair of Go ints. -/
structure Location where
  X : Int
  Y : Int
deriving DecidableEq

/-- Board holds the grid: `GridSize` rows of `GridSize` bytes. -/
structure Board where
  Grid : Fin GridSize → Fin GridSize → Char

/-- Snake holds the direction and the locations of all its segments, head first. -/
structure Snake where
  Segments : List Location
  Direction : Location
deriving DecidableEq

/-- One outcome of the pair of calls `rand.Intn(GridSize - 1)` made by `addFood`:
each value lies in the half-open interval `[0, GridSize - 1)`. -/
abbrev Draw : Type := Fin (GridSize - 1) × Fin (GridSize - 1)

/-- The whole program state: the board and the snake handed to `refreshScreen`,
the global `IsPaused`, and the values the random source will return next. -/
structure World where
  board : Board
  snake : Snake
  IsPaused : Bool
  rand : List Draw

/-- What a piece of the program does to the state: it returns (`running`), it
calls `endGame` (`gameOver`, with the state at that moment), it stops with the
run-time error "index out of range", or it is still retrying `addFood` when the
listed random values are used up (`retrying`). -/
inductive Outcome where
  | running (w : World)
  | gameOver (w : World)
  | indexOutOfRange
  | retrying

/-- Sequencing of two statements: the second runs only if the first returned. -/
def Outcome.andThen (o : Outcome) (f : World → Outcome) : Outcome :=
  match o with
  | .running w => f w
  | .gameOver w => .gameOver w
  | .indexOutOfRange => .indexOutOfRange
  | .retrying => .retrying

/-! ## Grid access -/

/-- The grid cell a location names, if both coordinates are in `[0, GridSize)`. -/
def Location.cell (l : Location) : Option (Fin GridSize × Fin GridSize) :=
  if h : 0 ≤ l.X ∧ l.X < GridSize ∧ 0 ≤ l.Y ∧ l.Y < GridSize then
    some (⟨l.X.toNat, by omega⟩, ⟨l.Y.toNat, by omega⟩)
  else none

/-- The location of a grid cell. -/
def cellLocation (i j : Fin GridSize) : Location := ⟨(i.val : Int), (j.val : Int)⟩

/-- The assignment `board.Grid[i][j] = v` with indices in range. -/
def Board.set (board : Board) (i j : Fin GridSize) (v : Char) : Board :=
  ⟨fun a b => if a = i ∧ b = j then v else board.Grid a b⟩

/-- The read `board.Grid[l.X][l.Y]`; `none` is "index out of range". -/
def Board.read (board : Board) (l : Location) : Option Char :=
  match l.cell with
  | some (i, j) => some (board.Grid i j)
  | none => none

/-- The assignment `board.Grid[l.X][l.Y] = v`; `none` is "index out of range". -/
def Board.write (board : Board) (l : Location) (v : Char) : Option Board :=
  match l.cell with
  | some (i, j) => some (board.set i j v)
  | none => none

/-- A value returned by `rand.Intn(GridSize - 1)` used as an index of the grid. -/
def gridIndex (r : Fin (GridSize - 1)) : Fin GridSize := Fin.castLE (by decide) r

/-! ## The program -/

/-- The method `Board.addFood`: draw `randX`, `randY`; if that cell is `'s'` call
`addFood` again, otherwise write `'f'` there. It returns the board and the unused
random values, or `none` when the listed values run out during the retries. -/
def Board.addFood (board : Board) : List Draw → Option (Board × List Draw)
  | [] => none
  | (randX, randY) :: rest =>
    if board.Grid (gridIndex randX) (gridIndex randY) = 's' then
      board.addFood rest
    else
      some (board.set (gridIndex randX) (gridIndex randY) 'f', rest)

/-- The function `initializeBoard`: an all-zero grid, then `addFood`. -/
def initializeBoard (rand : List Draw) : Option (Board × List Draw) :=
  Board.addFood ⟨fun _ _ => Char.ofNat 0⟩ rand

/-- The function `initializeSnake`: one segment at (0,0), direction (1,0). -/
def initializeSnake : Snake :=
  { Segments := [⟨0, 0⟩], Direction := ⟨1, 0⟩ }

/-- The function `endGame`: print "Game Over" and the score, then exit. -/
def endGame (w : World) : Outcome := .gameOver w

/-- The number `printScore` prints: `100*(len(snake.Segments)-1)`. -/
def printScore (snake : Snake) : Int := 100 * ((snake.Segments.length : Int) - 1)

/-- The function `pauseGame`. -/
def pauseGame (w : World) : World := { w with IsPaused := !w.IsPaused }

/-- The keys `updateDirection` tells apart. -/
inductive Key where
  | KeyArrowRight | KeyArrowLeft | KeyArrowUp | KeyArrowDown | KeyCtrlC | KeyCtrlP | other
deriving DecidableEq

/-- One key event handled by the loop of `Snake.updateDirection`. -/
def updateDirection (ev : Key) (w : World) : Outcome :=
  match ev with
  | .KeyCtrlC => endGame w
  | .KeyCtrlP => .running (pauseGame w)
  | .KeyArrowRight => .running { w with snake := { w.snake with Direction := ⟨0, 1⟩ } }
  | .KeyArrowLeft => .running { w with snake := { w.snake with Direction := ⟨0, -1⟩ } }
  | .KeyArrowUp => .running { w with snake := { w.snake with Direction := ⟨-1, 0⟩ } }
  | .KeyArrowDown => .running { w with snake := { w.snake with Direction := ⟨1, 0⟩ } }
  | .other => .running w

/-- The location `Segments[0] + Direction` that `isInBounds`, `eatFood` and
`updateHeadLocation` each compute; `none` when there is no `Segments[0]`. -/
def nextHead (snake : Snake) : Option Location :=
  match snake.Segments with
  | [] => none
  | h :: _ => some ⟨addInt h.X snake.Direction.X, addInt h.Y snake.Direction.Y⟩

/-- The method `Snake.isInBounds`, with `len(board.Grid) = len(board.Grid[0]) = GridSize`;
`none` is "index out of range" on `Segments[0]`. -/
def isInBounds (snake : Snake) (_board : Board) : Option Bool :=
  match snake.Segments with
  | [] => none
  | h :: _ =>
    some (decide
      ((addInt h.X snake.Direction.X < GridSize ∧ addInt h.Y snake.Direction.Y < GridSize) ∧
        (addInt h.X snake.Direction.X ≥ 0 ∧ addInt h.Y snake.Direction.Y ≥ 0)))

/-- The method `Snake.updateHeadLocation`. -/
def updateHeadLocation (w : World) : Outcome :=
  match isInBounds w.snake w.board, w.snake.Segments with
  | some true, h :: t =>
    .running { w with snake := { w.snake with
      Segments := ⟨addInt h.X w.snake.Direction.X, addInt h.Y w.snake.Direction.Y⟩ :: t } }
  | some false, _ => .running w
  | _, _ => .indexOutOfRange

/-- The loop of `updateSegments` from index `i` on: `curr := Segments[i]`,
`Segments[i] = prev`, `prev = curr`. -/
def shiftFrom (prev : Location) : List Location → List Location
  | [] => []
  | curr :: rest => prev :: shiftFrom curr rest

/-- The method `Snake.updateSegments`. -/
def updateSegments (w : World) : Outcome :=
  match w.snake.Segments with
  | [] => .indexOutOfRange
  | h :: t =>
    updateHeadLocation { w with snake := { w.snake with Segments := h :: shiftFrom h t } }

/-- The loop shared by `clear` and `redraw`: write `v` at every listed segment in order. -/
def paint (v : Char) (board : Board) : List Location → Option Board
  | [] => some board
  | l :: rest =>
    match board.write l v with
    | some board1 => paint v board1 rest
    | none => none

/-- The method `Snake.clear`. -/
def clear (w : World) : Outcome :=
  match paint ' ' w.board w.snake.Segments with
  | some board1 => .running { w with board := board1 }
  | none => .indexOutOfRange

/-- The method `Snake.redraw`. -/
def redraw (w : World) : Outcome :=
  match paint 's' w.board w.snake.Segments with
  | some board1 => .running { w with board := board1 }
  | none => .indexOutOfRange

/-- The method `Snake.addSegment`; the slice has capacity `SnakeCapacity`
(`initializeSnake`), so the re-slice under `lenSnake < SnakeCapacity` is in range. -/
def addSegment (w : World) : Outcome :=
  let lenSnake := w.snake.Segments.length + 1
  let w1 : World :=
    if lenSnake < SnakeCapacity then
      { w with snake := { w.snake with Segments := w.snake.Segments ++ [⟨0, 0⟩] } }
    else w
  if lenSnake = SnakeCapacity then endGame w1 else .running w1

/-- The call `board.addFood()` on the state. -/
def addFood (w : World) : Outcome :=
  match w.board.addFood w.rand with
  | some (board1, rest) => .running { w with board := board1, rand := rest }
  | none => .retrying

/-- The method `Snake.eatFood`. -/
def eatFood (w : World) : Outcome :=
  match nextHead w.snake, isInBounds w.snake w.board with
  | some target, some inBounds =>
    if !inBounds then endGame w
    else
      match w.board.read target with
      | none => .indexOutOfRange
      | some c =>
        if c = 's' then endGame w
        else if c = 'f' then
          match w.board.write target ' ' with
          | none => .indexOutOfRange
          | some board1 => (addSegment { w with board := board1 }).andThen addFood
        else .running w
  | _, _ => .indexOutOfRange

/-- The method `Snake.act`: one tick. -/
def act (w : World) : Outcome :=
  (((eatFood w).andThen clear).andThen updateSegments).andThen redraw

/-! ## Predicates on states -/

/-- Both coordinates of the location lie in `[0, GridSize)`. -/
def OnGrid (l : Location) : Prop :=
  0 ≤ l.X ∧ l.X < GridSize ∧ 0 ≤ l.Y ∧ l.Y < GridSize

instance (l : Location) : Decidable (OnGrid l) := by
  unfold OnGrid; infer_instance

/-- The grid marks exactly the snake's segment cells as snake: every segment
is a grid cell holding `'s'`, and every grid cell holding `'s'` is a segment. -/
def Synced (w : World) : Prop :=
  (∀ l ∈ w.snake.Segments, w.board.read l = some 's') ∧
    ∀ i j, w.board.Grid i j = 's' → cellLocation i j ∈ w.snake.Segments

instance (w : World) : Decidable (Synced w) := by
  unfold Synced; infer_instance

/-- The grid holds at most one food cell: any two cells holding `'f'` coincide. -/
def AtMostOneFood (board : Board) : Prop :=
  ∀ i j a b, board.Grid i j = 'f' → board.Grid a b = 'f' → i = a ∧ j = b

/-- The states the program can be in between two ticks: the state `main` builds
(`initializeBoard`, `initializeSnake`, not paused), closed under handled key
events and under ticks that return. -/
inductive Reachable : World → Prop where
  | start (rand rest : List Draw) (board : Board)
      (h : initializeBoard rand = some (board, rest)) :
      Reachable ⟨board, initializeSnake, false, rest⟩
  | key (ev : Key) (w w1 : World) (hw : Reachable w)
      (h : updateDirection ev w = .running w1) : Reachable w1
  | tick (w w1 : World) (hw : Reachable w) (h : act w = .running w1) : Reachable w1

/-- The three statements of `Snake.act` that follow `eatFood`:
`clear`, `updateSegments`, `redraw`. -/
def shiftAndDraw (w : World) : Outcome :=
  ((clear w).andThen updateSegments).andThen redraw

/-! ## Example states -/

/-- A board with every cell blank. -/
def blankBoard : Board := ⟨fun _ _ => ' '⟩

/-- A one-segment snake at (2,2) heading right on an otherwise blank board. -/
def plainWorld : World :=
  ⟨blankBoard.set 2 2 's', ⟨[⟨2, 2⟩], ⟨0, 1⟩⟩, false, []⟩

/-- The scenario of the specification: a one-segment snake at (2,2) heading right,
food at (2,3), with the given values to come from the random source. -/
def eatWorld (rand : List Draw) : World :=
  ⟨(blankBoard.set 2 2 's').set 2 3 'f', ⟨[⟨2, 2⟩], ⟨0, 1⟩⟩, false, rand⟩

/-- A one-segment snake at (0,0) heading left, towards the wall. -/
def wallWorld : World :=
  ⟨blankBoard.set 0 0 's', ⟨[⟨0, 0⟩], ⟨0, -1⟩⟩, false, []⟩

/-- A board marking (2,2), (2,1), (2,0) as snake. -/
def rowBoard : Board := ((blankBoard.set 2 2 's').set 2 1 's').set 2 0 's'

/-- A three-segment snake (2,2),(2,1),(2,0) whose direction points at its second segment. -/
def bentWorld : World :=
  ⟨rowBoard, ⟨[⟨2, 2⟩, ⟨2, 1⟩, ⟨2, 0⟩], ⟨0, -1⟩⟩, false, []⟩

/-- A four-segment snake (0,0),(0,1),(1,1),(1,0) heading down, onto its own tail. -/
def squareWorld : World :=
  ⟨(((blankBoard.set 0 0 's').set 0 1 's').set 1 1 's').set 1 0 's',
    ⟨[⟨0, 0⟩, ⟨0, 1⟩, ⟨1, 1⟩, ⟨1, 0⟩], ⟨1, 0⟩⟩, false, []⟩

/-- A two-segment snake (2,1),(2,0) heading right. -/
def neckWorld : World :=
  ⟨(blankBoard.set 2 1 's').set 2 0 's', ⟨[⟨2, 1⟩, ⟨2, 0⟩], ⟨0, 1⟩⟩, false, []⟩

/-- The state `neckWorld` after the key ArrowLeft: the direction points at the neck. -/
def reversedNeckWorld : World :=
  { neckWorld with snake := { neckWorld.snake with Direction := ⟨0, -1⟩ } }

/-- The state `main` builds when the first random outcome is (1,0), with (5,5) the
next value to come: the food lies right below the snake's head. -/
def eatStartWorld : World :=
  ⟨(⟨fun _ _ => Char.ofNat 0⟩ : Board).set 1 0 'f', initializeSnake, false,
    [(⟨5, by decide⟩, ⟨5, by decide⟩)]⟩

/-! ## The game loop and runs of ticks -/

/-- One iteration of the loop of `refreshScreen`: when `IsPaused` is false, print the
head `Segments[0]`, call `act`, print the score and the board, sleep; otherwise nothing. -/
def refreshScreen (w : World) : Outcome :=
  if !w.IsPaused then
    match w.snake.Segments with
    | [] => .indexOutOfRange
    | _ :: _ => act w
  else .running w

/-- The first `n` iterations of the loop of `refreshScreen`. -/
def iterations : Nat → World → Outcome
  | 0, w => .running w
  | n + 1, w => (iterations n w).andThen refreshScreen

/-- The first `k` ticks in a row, with no key event in between. -/
def ticks : Nat → World → Outcome
  | 0, w => .running w
  | k + 1, w => (ticks k w).andThen act

/-- The direction is one of the four unit vectors an arrow key writes. -/
def UnitDirection (d : Location) : Prop :=
  d = ⟨0, 1⟩ ∨ d = ⟨0, -1⟩ ∨ d = ⟨-1, 0⟩ ∨ d = ⟨1, 0⟩

instance (d : Location) : Decidable (UnitDirection d) := by
  unfold UnitDirection; infer_instance

/-- Every grid cell marked `'s'` is the cell of a segment. -/
def NoStaleMark (w : World) : Prop :=
  ∀ i j, w.board.Grid i j = 's' → cellLocation i j ∈ w.snake.Segments

instance (w : World) : Decidable (NoStaleMark w) := by
  unfold NoStaleMark; infer_instance

/-- What every state between two ticks satisfies: there is a head, the slice is below
its capacity, the segments are pairwise distinct cells of the grid, the direction is a
unit vector, and either the snake is the single segment not yet drawn or every segment
is marked `'s'` on the grid. -/
def Steady (w : World) : Prop :=
  w.snake.Segments ≠ [] ∧ w.snake.Segments.length < SnakeCapacity ∧
    w.snake.Segments.Nodup ∧ (∀ l ∈ w.snake.Segments, OnGrid l) ∧
    UnitDirection w.snake.Direction ∧
    (w.snake.Segments.length = 1 ∨ ∀ l ∈ w.snake.Segments, w.board.read l = some 's')

/-- The terminal conditions a tick can meet: the next head cell is out of bounds, it
is marked `'s'` (self-collision), or it holds food while growing by one segment makes
the count reach `SnakeCapacity` (board full). -/
def Terminal (w : World) : Prop :=
  ∃ target, nextHead w.snake = some target ∧
    (¬ OnGrid target ∨ w.board.read target = some 's' ∨
      (w.board.read target = some 'f' ∧ w.snake.Segments.length + 1 = SnakeCapacity))

/-! # Properties -/

/-! ## Grid access lemmas -/

theorem Board.set_Grid (board : Board) (i j a b : Fin GridSize) (v : Char) :
    (board.set i j v).Grid a b = if a = i ∧ b = j then v else board.Grid a b := rfl

theorem cellLocation_inj {i j a b : Fin GridSize} :
    cellLocation i j = cellLocation a b ↔ i = a ∧ j = b := by
  simp only [cellLocation, Location.mk.injEq, Nat.cast_inj]
  constructor
  · rintro ⟨h1, h2⟩; exact ⟨Fin.ext h1, Fin.ext h2⟩
  · rintro ⟨h1, h2⟩; subst h1; subst h2; exact ⟨rfl, rfl⟩

theorem cellLocation_onGrid (i j : Fin GridSize) : OnGrid (cellLocation i j) := by
  have hi := i.isLt
  have hj := j.isLt
  simp only [OnGrid, cellLocation]
  omega

theorem cell_cellLocation (i j : Fin GridSize) : (cellLocation i j).cell = some (i, j) := by
  have h := cellLocation_onGrid i j
  unfold OnGrid at h
  simp [Location.cell, h, cellLocation]

theorem cell_of_onGrid {l : Location} (h : OnGrid l) :
    ∃ i j, l = cellLocation i j ∧ l.cell = some (i, j) := by
  have h1 := h
  unfold OnGrid at h1
  refine ⟨⟨l.X.toNat, by omega⟩, ⟨l.Y.toNat, by omega⟩, ?_, ?_⟩
  · cases l with
    | mk x y =>
      simp only [cellLocation, Location.mk.injEq]
      simp only at h1
      constructor <;> omega
  · have h2 : 0 ≤ l.X ∧ l.X < (GridSize : Int) ∧ 0 ≤ l.Y ∧ l.Y < (GridSize : Int) := h1
    simp only [Location.cell, dif_pos h2]

theorem onGrid_of_cell {l : Location} {c : Fin GridSize × Fin GridSize}
    (h : l.cell = some c) : OnGrid l := by
  unfold Location.cell at h
  split at h
  · assumption
  · cases h

theorem cell_eq_some {l : Location} {i j : Fin GridSize} :
    l.cell = some (i, j) ↔ l = cellLocation i j := by
  constructor
  · intro h
    obtain ⟨a, b, hab, hc⟩ := cell_of_onGrid (onGrid_of_cell h)
    rw [hc] at h
    cases h
    exact hab
  · intro h; rw [h]; exact cell_cellLocation i j

theorem read_cellLocation (board : Board) (i j : Fin GridSize) :
    board.read (cellLocation i j) = some (board.Grid i j) := by
  simp [Board.read, cell_cellLocation]

theorem write_cellLocation (board : Board) (i j : Fin GridSize) (v : Char) :
    board.write (cellLocation i j) v = some (board.set i j v) := by
  simp [Board.write, cell_cellLocation]

theorem onGrid_of_read {board : Board} {l : Location} {c : Char}
    (h : board.read l = some c) : OnGrid l := by
  unfold Board.read at h
  cases hc : l.cell with
  | none => rw [hc] at h; cases h
  | some p => exact onGrid_of_cell hc

theorem read_eq_none {board : Board} {l : Location} (h : ¬ OnGrid l) :
    board.read l = none := by
  cases hr : board.read l with
  | none => rfl
  | some c => exact absurd (onGrid_of_read hr) h

/-! ## The loops -/

theorem paint_onGrid (v : Char) (segs : List Location) (board : Board)
    (h : ∀ l ∈ segs, OnGrid l) :
    ∃ board1, paint v board segs = some board1 ∧
      ∀ i j, board1.Grid i j = if cellLocation i j ∈ segs then v else board.Grid i j := by
  induction segs generalizing board with
  | nil => exact ⟨board, rfl, by simp⟩
  | cons l rest ih =>
    obtain ⟨a, b, hl, -⟩ := cell_of_onGrid (h l (List.mem_cons_self _ _))
    obtain ⟨board1, h1, h2⟩ := ih (board.set a b v) (fun x hx => h x (List.mem_cons_of_mem _ hx))
    refine ⟨board1, ?_, ?_⟩
    · simp only [paint, hl, write_cellLocation]
      exact h1
    · intro i j
      subst hl
      rw [h2, Board.set_Grid]
      simp only [List.mem_cons, cellLocation_inj]
      by_cases hr : cellLocation i j ∈ rest <;> by_cases he : i = a ∧ j = b <;> simp [hr, he]

theorem paint_offGrid (v : Char) (segs : List Location) (board : Board)
    (l : Location) (hl : l ∈ segs) (hoff : ¬ OnGrid l) : paint v board segs = none := by
  induction segs generalizing board with
  | nil => cases hl
  | cons x rest ih =>
    simp only [paint]
    cases hw : board.write x v with
    | none => rfl
    | some board1 =>
      simp only
      rcases List.mem_cons.1 hl with h | h
      · subst h
        unfold Board.write at hw
        cases hc : l.cell with
        | none => rw [hc] at hw; cases hw
        | some p => exact absurd (onGrid_of_cell hc) hoff
      · exact ih board1 h

theorem shiftFrom_eq_dropLast (prev : Location) (t : List Location) :
    shiftFrom prev t = (prev :: t).dropLast := by
  induction t generalizing prev with
  | nil => rfl
  | cons c rest ih => simp [shiftFrom, ih, List.dropLast]

theorem andThen_assoc (o : Outcome) (f g : World → Outcome) :
    (o.andThen f).andThen g = o.andThen fun w => (f w).andThen g := by
  cases o <;> rfl

/-! ## The parts of a tick -/

theorem act_eq (w : World) : act w = (eatFood w).andThen shiftAndDraw := by
  unfold act shiftAndDraw
  rw [andThen_assoc, andThen_assoc]
  congr 1
  funext w1
  rw [andThen_assoc]

theorem nextHead_cons (snake : Snake) (h : Location) (t : List Location)
    (hseg : snake.Segments = h :: t) :
    nextHead snake = some ⟨addInt h.X snake.Direction.X, addInt h.Y snake.Direction.Y⟩ := by
  simp [nextHead, hseg]

theorem isInBounds_eq (snake : Snake) (board : Board) (target : Location)
    (hn : nextHead snake = some target) :
    isInBounds snake board = some (decide (OnGrid target)) := by
  unfold nextHead at hn
  unfold isInBounds
  cases hs : snake.Segments with
  | nil => rw [hs] at hn; cases hn
  | cons h t =>
    rw [hs] at hn
    simp only [Option.some.injEq] at hn
    subst hn
    simp only [OnGrid, Option.some.injEq, decide_eq_decide]
    constructor <;> intro hh <;> omega

theorem dropLast_subset (segs : List Location) (l : Location) (hl : l ∈ segs.dropLast) :
    l ∈ segs := List.dropLast_subset segs hl

theorem shiftAndDraw_onGrid (w : World) (h : Location) (t : List Location) (target : Location)
    (hseg : w.snake.Segments = h :: t) (hn : nextHead w.snake = some target)
    (hon : ∀ l ∈ w.snake.Segments, OnGrid l) (htarget : OnGrid target) :
    ∃ board1,
      shiftAndDraw w = .running { w with
        board := board1,
        snake := { w.snake with Segments := target :: (h :: t).dropLast } } ∧
      ∀ i j, board1.Grid i j =
        if cellLocation i j ∈ target :: (h :: t).dropLast then 's'
        else if cellLocation i j ∈ h :: t then ' ' else w.board.Grid i j := by
  obtain ⟨b1, hb1, hg1⟩ := paint_onGrid ' ' w.snake.Segments w.board hon
  have hon2 : ∀ l ∈ target :: (h :: t).dropLast, OnGrid l := by
    intro l hl
    rcases List.mem_cons.1 hl with hl | hl
    · rw [hl]; exact htarget
    · exact hon l (by rw [hseg]; exact List.dropLast_subset _ hl)
  obtain ⟨b2, hb2, hg2⟩ := paint_onGrid 's' (target :: (h :: t).dropLast) b1 hon2
  have hn2 := hn
  rw [nextHead_cons w.snake h t hseg] at hn2
  simp only [Option.some.injEq] at hn2
  have hin : isInBounds { w.snake with Segments := h :: shiftFrom h t } b1 = some true := by
    have : nextHead { w.snake with Segments := h :: shiftFrom h t } = some target := by
      simp [nextHead, hn2]
    rw [isInBounds_eq _ _ _ this]
    simp [htarget]
  have hc : clear w = .running { w with board := b1 } := by
    simp only [clear, hb1]
  have hu : updateSegments { w with board := b1 } = .running { w with
      board := b1, snake := { w.snake with Segments := target :: (h :: t).dropLast } } := by
    simp only [updateSegments, hseg, updateHeadLocation, hin]
    rw [shiftFrom_eq_dropLast, hn2]
  have hr : redraw { w with
      board := b1, snake := { w.snake with Segments := target :: (h :: t).dropLast } } =
      .running { w with
        board := b2, snake := { w.snake with Segments := target :: (h :: t).dropLast } } := by
    simp only [redraw, hb2]
  refine ⟨b2, ?_, ?_⟩
  · simp only [shiftAndDraw, hc, Outcome.andThen, hu, hr]
  · intro i j
    rw [hg2, hg1, hseg]

theorem segments_of_nextHead {snake : Snake} {target : Location}
    (hn : nextHead snake = some target) :
    ∃ h t, snake.Segments = h :: t := by
  unfold nextHead at hn
  cases hs : snake.Segments with
  | nil => rw [hs] at hn; cases hn
  | cons h t => exact ⟨h, t, rfl⟩

theorem eatFood_outOfBounds (w : World) (target : Location)
    (hn : nextHead w.snake = some target) (hoff : ¬ OnGrid target) :
    eatFood w = .gameOver w := by
  simp [eatFood, hn, isInBounds_eq _ w.board _ hn, hoff, endGame]

theorem eatFood_snake (w : World) (target : Location)
    (hn : nextHead w.snake = some target) (hread : w.board.read target = some 's') :
    eatFood w = .gameOver w := by
  simp [eatFood, hn, isInBounds_eq _ w.board _ hn, onGrid_of_read hread, hread, endGame]

theorem eatFood_empty (w : World) (target : Location) (c : Char)
    (hn : nextHead w.snake = some target) (hread : w.board.read target = some c)
    (hs : c ≠ 's') (hf : c ≠ 'f') :
    eatFood w = .running w := by
  simp [eatFood, hn, isInBounds_eq _ w.board _ hn, onGrid_of_read hread, hread, hs, hf]

theorem onGrid_of_synced {w : World} (hsync : Synced w) :
    ∀ l ∈ w.snake.Segments, OnGrid l :=
  fun l hl => onGrid_of_read (hsync.1 l hl)

/-! ## C1: plain move -/

/-- C1. Plain move: in a state whose grid marks exactly the segment cells as snake,
if the next head cell is on the grid and holds neither `'s'` nor `'f'`, one tick
returns (the game goes on) with the segments equal to the next head cell followed
by the old segments without the last one; the length is unchanged and every
segment `i > 0` holds the previous position of segment `i - 1`. -/
theorem act_plain_move (w : World) (target : Location)
    (hsync : Synced w) (hn : nextHead w.snake = some target) (hon : OnGrid target)
    (hs : w.board.read target ≠ some 's') (hf : w.board.read target ≠ some 'f') :
    ∃ w1, act w = .running w1 ∧
      w1.snake.Segments = target :: w.snake.Segments.dropLast ∧
      w1.snake.Segments.length = w.snake.Segments.length ∧
      ∀ i, 0 < i → i < w1.snake.Segments.length →
        w1.snake.Segments[i]? = w.snake.Segments[i - 1]? := by
  obtain ⟨h, t, hseg⟩ := segments_of_nextHead hn
  obtain ⟨i, j, hij, -⟩ := cell_of_onGrid hon
  have hread : w.board.read target = some (w.board.Grid i j) := by
    rw [hij]; exact read_cellLocation _ _ _
  have he : eatFood w = .running w :=
    eatFood_empty w target _ hn hread (fun hc => hs (by rw [hread, hc]))
      (fun hc => hf (by rw [hread, hc]))
  obtain ⟨b1, hb1, -⟩ := shiftAndDraw_onGrid w h t target hseg hn (onGrid_of_synced hsync) hon
  refine ⟨_, by rw [act_eq, he]; exact hb1, ?_, ?_, ?_⟩
  · simp only [hseg]
  · simp only [hseg, List.length_cons, List.length_dropLast]
    rfl
  · intro k hk hlt
    simp only [List.length_cons, List.length_dropLast, hseg] at hlt
    obtain ⟨m, rfl⟩ : ∃ m, k = m + 1 := ⟨k - 1, by omega⟩
    simp only [hseg, List.getElem?_cons_succ, Nat.add_sub_cancel]
    rw [List.getElem?_dropLast, if_pos (by simp only [List.length_cons]; omega)]

/-- C1 at a concrete state: the one-segment snake at (2,2) heading right moves to (2,3). -/
theorem act_plain_move_witness :
    ∃ w1, act plainWorld = .running w1 ∧
      w1.snake.Segments = (⟨2, 3⟩ : Location) :: plainWorld.snake.Segments.dropLast ∧
      w1.snake.Segments.length = plainWorld.snake.Segments.length ∧
      ∀ i, 0 < i → i < w1.snake.Segments.length →
        w1.snake.Segments[i]? = plainWorld.snake.Segments[i - 1]? :=
  act_plain_move plainWorld ⟨2, 3⟩ (by decide) (by decide) (by decide) (by decide) (by decide)

/-! ## Food placement -/

theorem Board.addFood_of_accepted (board : Board) (rand : List Draw)
    (h : ∃ d ∈ rand, board.Grid (gridIndex d.1) (gridIndex d.2) ≠ 's') :
    ∃ d rest, d ∈ rand ∧ board.Grid (gridIndex d.1) (gridIndex d.2) ≠ 's' ∧
      board.addFood rand = some (board.set (gridIndex d.1) (gridIndex d.2) 'f', rest) := by
  induction rand with
  | nil => obtain ⟨d, hd, -⟩ := h; cases hd
  | cons x rest ih =>
    obtain ⟨x1, x2⟩ := x
    by_cases hx : board.Grid (gridIndex x1) (gridIndex x2) = 's'
    · have h1 : ∃ d ∈ rest, board.Grid (gridIndex d.1) (gridIndex d.2) ≠ 's' := by
        obtain ⟨d, hd, hne⟩ := h
        rcases List.mem_cons.1 hd with hd | hd
        · subst hd; exact absurd hx hne
        · exact ⟨d, hd, hne⟩
      obtain ⟨d, r, hd, hne, hr⟩ := ih h1
      refine ⟨d, r, List.mem_cons_of_mem _ hd, hne, ?_⟩
      simp only [Board.addFood, hx, if_true]
      exact hr
    · refine ⟨(x1, x2), rest, List.mem_cons_self _ _, hx, ?_⟩
      simp only [Board.addFood, hx, if_false]

theorem Board.addFood_some (board board1 : Board) (rand rest : List Draw)
    (h : board.addFood rand = some (board1, rest)) :
    ∃ d, d ∈ rand ∧ board.Grid (gridIndex d.1) (gridIndex d.2) ≠ 's' ∧
      board1 = board.set (gridIndex d.1) (gridIndex d.2) 'f' := by
  induction rand with
  | nil => cases h
  | cons x r ih =>
    obtain ⟨x1, x2⟩ := x
    by_cases hx : board.Grid (gridIndex x1) (gridIndex x2) = 's'
    · simp only [Board.addFood, hx, if_true] at h
      obtain ⟨d, hd, hne, hb⟩ := ih h
      exact ⟨d, List.mem_cons_of_mem _ hd, hne, hb⟩
    · simp only [Board.addFood, hx, if_false, Option.some.injEq, Prod.mk.injEq] at h
      exact ⟨(x1, x2), List.mem_cons_self _ _, hx, h.1.symm⟩

theorem eatFood_food (w : World) (target : Location) (i j : Fin GridSize)
    (hn : nextHead w.snake = some target) (ht : target = cellLocation i j)
    (hfood : w.board.Grid i j = 'f') :
    eatFood w = (addSegment { w with board := w.board.set i j ' ' }).andThen addFood := by
  have hread : w.board.read target = some 'f' := by
    rw [ht, read_cellLocation, hfood]
  have hw : w.board.write target ' ' = some (w.board.set i j ' ') := by
    rw [ht, write_cellLocation]
  have hsf : ('f' : Char) ≠ 's' := by decide
  simp [eatFood, hn, isInBounds_eq _ w.board _ hn, onGrid_of_read hread, hread, hw, hsf]

/-! ## Eating from a state on the grid -/

/-- Eating from a state whose segments all lie on the grid and number fewer than
`GridSize*GridSize-2`: if the next head cell is on the grid and holds food, then for
every list of random values that contains a value naming a non-snake cell the tick
returns with the segments equal to the next head cell followed by all the old
segments in their old order; the count grows by 1 and the score by 100. -/
theorem act_eat_grows_onGrid (w : World) (target : Location)
    (hgrid : ∀ l ∈ w.snake.Segments, OnGrid l)
    (hlen : w.snake.Segments.length < GridSize * GridSize - 2)
    (hn : nextHead w.snake = some target) (hon : OnGrid target)
    (hfood : w.board.read target = some 'f')
    (hrand : ∃ d ∈ w.rand, w.board.Grid (gridIndex d.1) (gridIndex d.2) ≠ 's') :
    ∃ w1, act w = .running w1 ∧
      w1.snake.Segments = target :: w.snake.Segments ∧
      w1.snake.Segments.length = w.snake.Segments.length + 1 ∧
      printScore w1.snake = printScore w.snake + 100 := by
  obtain ⟨h, t, hseg⟩ := segments_of_nextHead hn
  obtain ⟨i, j, hij, -⟩ := cell_of_onGrid hon
  have hf : w.board.Grid i j = 'f' := by
    rw [hij, read_cellLocation] at hfood
    exact Option.some.inj hfood
  have hrand1 : ∃ d ∈ w.rand, (w.board.set i j ' ').Grid (gridIndex d.1) (gridIndex d.2) ≠ 's' := by
    obtain ⟨d, hd, hne⟩ := hrand
    refine ⟨d, hd, ?_⟩
    rw [Board.set_Grid]
    split
    · decide
    · exact hne
  obtain ⟨d, rest, -, -, hadd⟩ := Board.addFood_of_accepted _ _ hrand1
  have hlen1 : w.snake.Segments.length + 1 < SnakeCapacity := by
    simp only [SnakeCapacity, GridSize] at hlen ⊢
    omega
  have he : eatFood w = .running { w with
      board := (w.board.set i j ' ').set (gridIndex d.1) (gridIndex d.2) 'f',
      snake := { w.snake with Segments := w.snake.Segments ++ [⟨0, 0⟩] },
      rand := rest } := by
    rw [eatFood_food w target i j hn hij hf]
    simp only [addSegment, hlen1, if_true, Nat.ne_of_lt hlen1, if_false, Outcome.andThen,
      addFood, hadd]
  have hseg1 : w.snake.Segments ++ [(⟨0, 0⟩ : Location)] = h :: (t ++ [⟨0, 0⟩]) := by
    rw [hseg]; rfl
  have hn1 : nextHead { w.snake with Segments := w.snake.Segments ++ [⟨0, 0⟩] } = some target := by
    rw [nextHead_cons w.snake h t hseg] at hn
    rw [nextHead_cons _ h (t ++ [⟨0, 0⟩]) hseg1]
    exact hn
  have hgrid1 : ∀ l ∈ w.snake.Segments ++ [(⟨0, 0⟩ : Location)], OnGrid l := by
    intro l hl
    rcases List.mem_append.1 hl with hl | hl
    · exact hgrid l hl
    · rw [List.mem_singleton.1 hl]; decide
  obtain ⟨b1, hb1, -⟩ := shiftAndDraw_onGrid
    { w with
      board := (w.board.set i j ' ').set (gridIndex d.1) (gridIndex d.2) 'f',
      snake := { w.snake with Segments := w.snake.Segments ++ [⟨0, 0⟩] },
      rand := rest } h (t ++ [⟨0, 0⟩]) target hseg1 hn1 hgrid1 hon
  have hdrop : (h :: (t ++ [(⟨0, 0⟩ : Location)])).dropLast = w.snake.Segments := by
    rw [← hseg1, List.dropLast_concat]
  refine ⟨_, by rw [act_eq, he]; exact hb1, ?_, ?_, ?_⟩
  · simp only [hdrop]
  · simp only [hdrop, List.length_cons]
  · simp only [printScore, hdrop, List.length_cons]
    push_cast
    ring

/-- The scenario of the specification: the snake at (2,2) eats the food at (2,3) and
becomes (2,3),(2,2); the score goes from 0 to 100. -/
theorem act_eat_scenario :
    ∃ w1, act (eatWorld [(⟨5, by decide⟩, ⟨5, by decide⟩)]) = .running w1 ∧
      w1.snake.Segments = [⟨2, 3⟩, ⟨2, 2⟩] ∧
      w1.snake.Segments.length = 1 + 1 ∧
      printScore w1.snake = 0 + 100 :=
  act_eat_grows_onGrid (eatWorld [(⟨5, by decide⟩, ⟨5, by decide⟩)]) ⟨2, 3⟩ (by decide)
    (by decide) (by decide) (by decide) (by decide) (by decide)

/-! ## C3: the food after eating -/

/-- C3 at the specification's scenario (snake of length 1 at (2,2) heading right,
food at (2,3), grid in step with the snake). If the random values name the cell
(2,3) the tick returns with the snake at (2,3),(2,2) and no food cell on the board:
the food was written on the cell the head then moved onto. If they name (0,0), the
food is erased by `clear` through the placeholder segment, and again no cell holds
food. -/
theorem act_eat_food_lost :
    Synced (eatWorld []) ∧
      (∃ w1, act (eatWorld [(⟨2, by decide⟩, ⟨3, by decide⟩)]) = .running w1 ∧
        w1.snake.Segments = [⟨2, 3⟩, ⟨2, 2⟩] ∧ ∀ i j, w1.board.Grid i j ≠ 'f') ∧
      ∃ w2, act (eatWorld [(⟨0, by decide⟩, ⟨0, by decide⟩)]) = .running w2 ∧
        w2.snake.Segments = [⟨2, 3⟩, ⟨2, 2⟩] ∧ ∀ i j, w2.board.Grid i j ≠ 'f' :=
  ⟨by decide, ⟨_, rfl, rfl, by decide⟩, ⟨_, rfl, rfl, by decide⟩⟩

/-! ## C4: out of bounds -/

/-- C4. Out of bounds is terminal and mutates nothing: if `head + direction` has a
coordinate below 0 or at least `GridSize`, one tick calls `endGame` in the very
state the tick started from, so the segments and the grid are what they were. -/
theorem act_out_of_bounds (w : World) (target : Location)
    (hn : nextHead w.snake = some target)
    (hoff : target.X < 0 ∨ (GridSize : Int) ≤ target.X ∨
      target.Y < 0 ∨ (GridSize : Int) ≤ target.Y) :
    act w = .gameOver w := by
  have h : ¬ OnGrid target := by
    unfold OnGrid
    omega
  rw [act_eq, eatFood_outOfBounds w target hn h]
  rfl

/-- C4 at a concrete state: the snake at (0,0) heading left ends the game unchanged. -/
theorem act_out_of_bounds_witness : act wallWorld = .gameOver wallWorld :=
  act_out_of_bounds wallWorld ⟨0, -1⟩ (by decide) (by decide)

/-! ## C5, C6, C7: running into the snake -/

theorem act_onto_segment (w : World) (target : Location)
    (hsync : Synced w) (hn : nextHead w.snake = some target)
    (hmem : target ∈ w.snake.Segments) : act w = .gameOver w := by
  rw [act_eq, eatFood_snake w target hn (hsync.1 target hmem)]
  rfl

/-- C5. Self-collision is terminal: in a state whose grid marks exactly the segment
cells as snake, if the next head cell is on the grid and is the location of a
segment other than the tail (index `i` with `i + 1 < len`), one tick calls `endGame`
in the state the tick started from: the segments are unchanged. -/
theorem act_self_collision (w : World) (target : Location) (i : Nat)
    (hsync : Synced w) (hn : nextHead w.snake = some target) (hon : OnGrid target)
    (hi : i + 1 < w.snake.Segments.length) (hseg : w.snake.Segments[i]? = some target) :
    act w = .gameOver w :=
  act_onto_segment w target hsync hn (List.getElem?_mem hseg)

/-- C5 at a concrete state: the snake (2,2),(2,1),(2,0) turned towards (2,1). -/
theorem act_self_collision_witness : act bentWorld = .gameOver bentWorld :=
  act_self_collision bentWorld ⟨2, 1⟩ 1 (by decide) (by decide) (by decide) (by decide)
    (by decide)

/-- C6, as stated, fails: the snake (0,0),(0,1),(1,1),(1,0) heading down has its grid
in step, at least 2 segments and its next head cell (1,0) is the tail's cell, yet the
tick ends the game: the tail's cell is still marked `'s'` when `eatFood` looks. -/
theorem act_into_tail_counterexample :
    Synced squareWorld ∧ 2 ≤ squareWorld.snake.Segments.length ∧
      nextHead squareWorld.snake = squareWorld.snake.Segments.getLast? ∧
      act squareWorld = .gameOver squareWorld ∧
      ¬ ∃ w1, act squareWorld = .running w1 := by
  have h : act squareWorld = .gameOver squareWorld := rfl
  refine ⟨by decide, by decide, rfl, h, ?_⟩
  rintro ⟨w1, h1⟩
  rw [h] at h1
  cases h1

/-- C6, amended. Moving into the cell the tail occupies ends the game: in a state
with at least 2 segments whose grid marks exactly the segment cells as snake, if the
next head cell is the location of the last segment, one tick calls `endGame` in the
state the tick started from; the snake does not move. -/
theorem act_into_tail (w : World) (target : Location)
    (hsync : Synced w) (hlen : 2 ≤ w.snake.Segments.length)
    (hn : nextHead w.snake = some target)
    (htail : w.snake.Segments.getLast? = some target) :
    act w = .gameOver w :=
  act_onto_segment w target hsync hn (List.mem_of_getLast?_eq_some htail)

/-- C6 (amended) at a concrete state: the square snake heading onto its tail. -/
theorem act_into_tail_witness : act squareWorld = .gameOver squareWorld :=
  act_into_tail squareWorld ⟨1, 0⟩ (by decide) (by decide) (by decide) (by decide)

theorem addInt_eq_add (a b : Int) (h1 : -9223372036854775808 ≤ a + b)
    (h2 : a + b < 9223372036854775808) : addInt a b = a + b := by
  unfold addInt
  omega

theorem updateDirection_arrow (ev : Key) (w w1 : World)
    (harrow : ev = .KeyArrowRight ∨ ev = .KeyArrowLeft ∨ ev = .KeyArrowUp ∨ ev = .KeyArrowDown)
    (hkey : updateDirection ev w = .running w1) :
    w1.board = w.board ∧ w1.snake.Segments = w.snake.Segments ∧
      (w1.snake.Direction = ⟨0, 1⟩ ∨ w1.snake.Direction = ⟨0, -1⟩ ∨
        w1.snake.Direction = ⟨-1, 0⟩ ∨ w1.snake.Direction = ⟨1, 0⟩) := by
  rcases harrow with h | h | h | h <;> subst h <;>
    simp only [updateDirection, Outcome.running.injEq] at hkey <;> subst hkey <;> simp

/-- C7. Reversing into the neck ends the game: in a state with at least 2 segments
whose grid marks exactly the segment cells as snake, after an arrow key sets the
direction to the unit vector pointing from the head to the segment at index 1, the
next tick calls `endGame`; the list `t` of further segments may be empty, so this
includes the snake of exactly 2 segments, whose second segment is its tail. -/
theorem act_reverse_into_neck (w w1 : World) (ev : Key) (h n : Location)
    (t : List Location) (hsync : Synced w) (hseg : w.snake.Segments = h :: n :: t)
    (harrow : ev = .KeyArrowRight ∨ ev = .KeyArrowLeft ∨ ev = .KeyArrowUp ∨ ev = .KeyArrowDown)
    (hkey : updateDirection ev w = .running w1)
    (hpoint : n.X = h.X + w1.snake.Direction.X ∧ n.Y = h.Y + w1.snake.Direction.Y) :
    act w1 = .gameOver w1 := by
  obtain ⟨hb, hs, -⟩ := updateDirection_arrow ev w w1 harrow hkey
  have hsync1 : Synced w1 := by
    unfold Synced
    rw [hb, hs]
    exact hsync
  have hn_on : OnGrid n := onGrid_of_synced hsync n (by rw [hseg]; simp)
  have hseg1 : w1.snake.Segments = h :: n :: t := by rw [hs, hseg]
  have hn : nextHead w1.snake = some n := by
    rw [nextHead_cons w1.snake h (n :: t) hseg1]
    have hb20 : 0 ≤ n.X ∧ n.X < 20 ∧ 0 ≤ n.Y ∧ n.Y < 20 := hn_on
    have hx : addInt h.X w1.snake.Direction.X = n.X := by
      rw [addInt_eq_add] <;> omega
    have hy : addInt h.Y w1.snake.Direction.Y = n.Y := by
      rw [addInt_eq_add] <;> omega
    rw [hx, hy]
  exact act_onto_segment w1 n hsync1 hn (by rw [hseg1]; simp)

/-- C7 at a concrete state: the two-segment snake (2,1),(2,0) heading right, after
ArrowLeft, ends the game on the next tick. -/
theorem act_reverse_into_neck_witness : act reversedNeckWorld = .gameOver reversedNeckWorld :=
  act_reverse_into_neck neckWorld reversedNeckWorld .KeyArrowLeft ⟨2, 1⟩ ⟨2, 0⟩ []
    (by decide) rfl (by decide) rfl (by decide)

/-! ## C8: the food at game start -/

/-- C8 at the random outcome (0,0): `initializeBoard` puts the food on cell (0,0), the
cell of the single segment `initializeSnake` then creates; the first tick erases that
food in `clear`, leaving a board without food. -/
theorem initial_food_on_snake :
    ∃ board, initializeBoard [(⟨0, by decide⟩, ⟨0, by decide⟩)] = some (board, []) ∧
      board.read ⟨0, 0⟩ = some 'f' ∧ (⟨0, 0⟩ : Location) ∈ initializeSnake.Segments ∧
      ∃ w1, act ⟨board, initializeSnake, false, []⟩ = .running w1 ∧
        ∀ i j, w1.board.Grid i j ≠ 'f' :=
  ⟨_, rfl, rfl, by decide, _, rfl, by decide⟩

/-! ## C9: where the food can be placed -/

/-- C9. Whatever the random values, `addFood` leaves every cell of the last row and
of the last column as it was: `rand.Intn(GridSize - 1)` never returns `GridSize - 1`,
so no food is ever placed there. -/
theorem addFood_last_row_column (board board1 : Board) (rand rest : List Draw)
    (i j : Fin GridSize) (h : board.addFood rand = some (board1, rest))
    (hlast : i.val = GridSize - 1 ∨ j.val = GridSize - 1) :
    board1.Grid i j = board.Grid i j := by
  obtain ⟨d, -, -, hb⟩ := Board.addFood_some board board1 rand rest h
  rw [hb, Board.set_Grid]
  have h1 := d.1.isLt
  have h2 := d.2.isLt
  have hne : ¬ (i = gridIndex d.1 ∧ j = gridIndex d.2) := by
    rintro ⟨hi, hj⟩
    rw [hi, hj] at hlast
    simp only [gridIndex, Fin.coe_castLE] at hlast
    omega
  rw [if_neg hne]

/-- C9 at a concrete input: on the blank board the cell (19,19) stays blank. -/
theorem addFood_last_row_column_witness :
    (blankBoard.set 5 5 'f').Grid 19 19 = blankBoard.Grid 19 19 :=
  addFood_last_row_column blankBoard (blankBoard.set 5 5 'f')
    [(⟨5, by decide⟩, ⟨5, by decide⟩)] [] 19 19 rfl (by decide)

/-- The part of C9 that holds: every non-snake cell outside the last row and the last
column is where `addFood` places the food for some random outcome. -/
theorem addFood_reaches (board : Board) (r c : Fin (GridSize - 1))
    (h : board.Grid (gridIndex r) (gridIndex c) ≠ 's') :
    board.addFood [(r, c)] = some (board.set (gridIndex r) (gridIndex c) 'f', []) := by
  simp only [Board.addFood, h, if_false]

/-! ## C10: at most one food cell -/

theorem andThen_running (o : Outcome) (f : World → Outcome) (w1 : World)
    (h : o.andThen f = .running w1) : ∃ w0, o = .running w0 ∧ f w0 = .running w1 := by
  cases o with
  | running w0 => exact ⟨w0, rfl, h⟩
  | gameOver w0 => cases h
  | indexOutOfRange => cases h
  | retrying => cases h

theorem paint_food (v : Char) (hv : v ≠ 'f') (segs : List Location) (board board1 : Board)
    (h : paint v board segs = some board1) (i j : Fin GridSize)
    (hf : board1.Grid i j = 'f') : board.Grid i j = 'f' := by
  induction segs generalizing board with
  | nil =>
    simp only [paint, Option.some.injEq] at h
    rw [h]; exact hf
  | cons l rest ih =>
    simp only [paint] at h
    cases hw : board.write l v with
    | none => rw [hw] at h; cases h
    | some b0 =>
      rw [hw] at h
      have h0 := ih b0 h
      unfold Board.write at hw
      cases hc : l.cell with
      | none => rw [hc] at hw; cases hw
      | some p =>
        rw [hc] at hw
        simp only [Option.some.injEq] at hw
        rw [← hw, Board.set_Grid] at h0
        split at h0
        · exact absurd h0 hv
        · exact h0

theorem clear_running (w w1 : World) (h : clear w = .running w1) :
    paint ' ' w.board w.snake.Segments = some w1.board ∧ w1.snake = w.snake ∧
      w1.rand = w.rand ∧ w1.IsPaused = w.IsPaused := by
  unfold clear at h
  cases hp : paint ' ' w.board w.snake.Segments with
  | none => rw [hp] at h; cases h
  | some b =>
    rw [hp] at h
    simp only [Outcome.running.injEq] at h
    subst h
    exact ⟨rfl, rfl, rfl, rfl⟩

theorem redraw_running (w w1 : World) (h : redraw w = .running w1) :
    paint 's' w.board w.snake.Segments = some w1.board ∧ w1.snake = w.snake ∧
      w1.rand = w.rand ∧ w1.IsPaused = w.IsPaused := by
  unfold redraw at h
  cases hp : paint 's' w.board w.snake.Segments with
  | none => rw [hp] at h; cases h
  | some b =>
    rw [hp] at h
    simp only [Outcome.running.injEq] at h
    subst h
    exact ⟨rfl, rfl, rfl, rfl⟩

theorem updateHeadLocation_board (w w1 : World) (h : updateHeadLocation w = .running w1) :
    w1.board = w.board := by
  unfold updateHeadLocation at h
  split at h
  · simp only [Outcome.running.injEq] at h; subst h; rfl
  · simp only [Outcome.running.injEq] at h; subst h; rfl
  · cases h

theorem updateSegments_board (w w1 : World) (h : updateSegments w = .running w1) :
    w1.board = w.board := by
  unfold updateSegments at h
  split at h
  · cases h
  · have hb := updateHeadLocation_board _ _ h
    exact hb

theorem shiftAndDraw_food (w w1 : World) (h : shiftAndDraw w = .running w1)
    (i j : Fin GridSize) (hf : w1.board.Grid i j = 'f') : w.board.Grid i j = 'f' := by
  unfold shiftAndDraw at h
  obtain ⟨w3, h3, hr⟩ := andThen_running _ _ _ h
  obtain ⟨w2, hc, hu⟩ := andThen_running _ _ _ h3
  have h1 := paint_food 's' (by decide) _ _ _ (redraw_running _ _ hr).1 i j hf
  rw [updateSegments_board _ _ hu] at h1
  exact paint_food ' ' (by decide) _ _ _ (clear_running _ _ hc).1 i j h1

theorem addSegment_running (w w1 : World) (h : addSegment w = .running w1) :
    w1.board = w.board ∧ w1.rand = w.rand := by
  unfold addSegment at h
  simp only at h
  split at h
  · cases h
  · simp only [Outcome.running.injEq] at h
    subst h
    split <;> exact ⟨rfl, rfl⟩

theorem addFood_running (w w1 : World) (h : addFood w = .running w1) :
    ∃ d, d ∈ w.rand ∧ w.board.Grid (gridIndex d.1) (gridIndex d.2) ≠ 's' ∧
      w1.board = w.board.set (gridIndex d.1) (gridIndex d.2) 'f' := by
  unfold addFood at h
  cases ha : w.board.addFood w.rand with
  | none => rw [ha] at h; cases h
  | some p =>
    obtain ⟨b, rest⟩ := p
    rw [ha] at h
    simp only [Outcome.running.injEq] at h
    subst h
    exact Board.addFood_some _ _ _ _ ha

theorem atMostOneFood_set_food (board : Board) (a b : Fin GridSize)
    (h : ∀ i j, board.Grid i j ≠ 'f') : AtMostOneFood (board.set a b 'f') := by
  intro i j i2 j2 h1 h2
  rw [Board.set_Grid] at h1 h2
  split at h1
  · split at h2
    · rename_i e1 e2
      exact ⟨e1.1.trans e2.1.symm, e1.2.trans e2.2.symm⟩
    · exact absurd h2 (h _ _)
  · exact absurd h1 (h _ _)

theorem eatFood_atMostOneFood (w w1 : World) (h : eatFood w = .running w1)
    (hone : AtMostOneFood w.board) : AtMostOneFood w1.board := by
  cases hn : nextHead w.snake with
  | none => simp [eatFood, hn] at h
  | some target =>
    by_cases hon : OnGrid target
    · obtain ⟨i, j, hij, -⟩ := cell_of_onGrid hon
      have hread : w.board.read target = some (w.board.Grid i j) := by
        rw [hij]; exact read_cellLocation _ _ _
      by_cases hs : w.board.Grid i j = 's'
      · rw [eatFood_snake w target hn (by rw [hread, hs])] at h
        cases h
      · by_cases hf : w.board.Grid i j = 'f'
        · rw [eatFood_food w target i j hn hij hf] at h
          obtain ⟨w0, h0, ha⟩ := andThen_running _ _ _ h
          obtain ⟨hb0, -⟩ := addSegment_running _ _ h0
          obtain ⟨d, -, -, hb1⟩ := addFood_running _ _ ha
          rw [hb1, hb0]
          apply atMostOneFood_set_food
          intro a b hab
          simp only [Board.set_Grid] at hab
          split at hab
          · exact absurd hab (by decide)
          · rename_i hne
            exact hne (hone a b i j hab hf)
        · rw [eatFood_empty w target _ hn hread hs hf] at h
          simp only [Outcome.running.injEq] at h
          subst h
          exact hone
    · rw [eatFood_outOfBounds w target hn hon] at h
      cases h

theorem act_atMostOneFood (w w1 : World) (h : act w = .running w1)
    (hone : AtMostOneFood w.board) : AtMostOneFood w1.board := by
  rw [act_eq] at h
  obtain ⟨w0, he, hs⟩ := andThen_running _ _ _ h
  have h0 := eatFood_atMostOneFood w w0 he hone
  intro i j a b h1 h2
  exact h0 i j a b (shiftAndDraw_food w0 w1 hs i j h1) (shiftAndDraw_food w0 w1 hs a b h2)

theorem updateDirection_board (ev : Key) (w w1 : World)
    (h : updateDirection ev w = .running w1) : w1.board = w.board := by
  cases ev <;> simp only [updateDirection, endGame, Outcome.running.injEq] at h <;>
    first
      | (subst h; rfl)
      | cases h

/-- C10. Board invariant: in every state reachable from the initial state
(`initializeBoard`, `initializeSnake`) by key events and ticks that return, whatever
the directions chosen and whatever the random values, the grid holds at most one
food cell. -/
theorem reachable_atMostOneFood (w : World) (h : Reachable w) : AtMostOneFood w.board := by
  induction h with
  | start rand rest board h =>
    obtain ⟨d, -, -, hb⟩ := Board.addFood_some _ _ _ _ h
    show AtMostOneFood board
    rw [hb]
    apply atMostOneFood_set_food
    intro i j
    show Char.ofNat 0 ≠ 'f'
    decide
  | key ev w w1 _ h ih =>
    rw [updateDirection_board ev w w1 h]
    exact ih
  | tick w w1 _ h ih => exact act_atMostOneFood w w1 h ih

/-- C10 at a concrete run: the game starts with the food at (1,0), right below the
head, and the first tick eats it, the new food being drawn at (5,5). -/
theorem reachable_atMostOneFood_witness :
    ∃ w1, act eatStartWorld = .running w1 ∧ AtMostOneFood w1.board :=
  ⟨_, rfl,
    reachable_atMostOneFood _
      (Reachable.tick eatStartWorld _
        (Reachable.start [(⟨1, by decide⟩, ⟨0, by decide⟩), (⟨5, by decide⟩, ⟨5, by decide⟩)]
          [(⟨5, by decide⟩, ⟨5, by decide⟩)] _ rfl)
        rfl)⟩

/-! ## What a returning tick does -/

theorem addSegment_running_snake (w w1 : World) (h : addSegment w = .running w1) :
    w1.board = w.board ∧ w1.rand = w.rand ∧ w1.IsPaused = w.IsPaused ∧
      w1.snake.Direction = w.snake.Direction ∧
      ((w.snake.Segments.length + 1 < SnakeCapacity ∧
          w1.snake.Segments = w.snake.Segments ++ [⟨0, 0⟩]) ∨
        (SnakeCapacity < w.snake.Segments.length + 1 ∧
          w1.snake.Segments = w.snake.Segments)) := by
  unfold addSegment at h
  simp only at h
  split at h
  · cases h
  · rename_i hne
    simp only [Outcome.running.injEq] at h
    subst h
    by_cases hlt : w.snake.Segments.length + 1 < SnakeCapacity
    · rw [if_pos hlt]
      exact ⟨rfl, rfl, rfl, rfl, Or.inl ⟨hlt, rfl⟩⟩
    · rw [if_neg hlt]
      exact ⟨rfl, rfl, rfl, rfl, Or.inr ⟨by omega, rfl⟩⟩

theorem addFood_running_snake (w w1 : World) (h : addFood w = .running w1) :
    w1.snake = w.snake ∧ w1.IsPaused = w.IsPaused := by
  unfold addFood at h
  cases ha : w.board.addFood w.rand with
  | none => rw [ha] at h; cases h
  | some p =>
    obtain ⟨b, rest⟩ := p
    rw [ha] at h
    simp only [Outcome.running.injEq] at h
    subst h
    exact ⟨rfl, rfl⟩

/-- The state a returning `eatFood` leaves: the direction and the pause flag are kept,
the segments are kept or extended by the placeholder `Location{}`, and no cell has
become `'s'`. -/
theorem eatFood_running (w w0 : World) (h : eatFood w = .running w0) :
    ∃ target, nextHead w.snake = some target ∧ OnGrid target ∧
      w.board.read target ≠ some 's' ∧
      w0.snake.Direction = w.snake.Direction ∧ w0.IsPaused = w.IsPaused ∧
      ((w0.snake.Segments = w.snake.Segments ∧
          (w.board.read target ≠ some 'f' ∨ SnakeCapacity < w.snake.Segments.length + 1)) ∨
        (w.board.read target = some 'f' ∧ w.snake.Segments.length + 1 < SnakeCapacity ∧
          w0.snake.Segments = w.snake.Segments ++ [⟨0, 0⟩])) ∧
      ∀ i j, w0.board.Grid i j = 's' → w.board.Grid i j = 's' := by
  cases hn : nextHead w.snake with
  | none => simp [eatFood, hn] at h
  | some target =>
    by_cases hon : OnGrid target
    · obtain ⟨i, j, hij, -⟩ := cell_of_onGrid hon
      have hread : w.board.read target = some (w.board.Grid i j) := by
        rw [hij]; exact read_cellLocation _ _ _
      by_cases hs : w.board.Grid i j = 's'
      · rw [eatFood_snake w target hn (by rw [hread, hs])] at h
        cases h
      · have hns : w.board.read target ≠ some 's' := by
          rw [hread]; intro hc; exact hs (Option.some.inj hc)
        by_cases hf : w.board.Grid i j = 'f'
        · rw [eatFood_food w target i j hn hij hf] at h
          obtain ⟨wa, h0, ha⟩ := andThen_running _ _ _ h
          obtain ⟨hb0, -, hp0, hd0, hs0⟩ := addSegment_running_snake _ _ h0
          obtain ⟨d, -, -, hb1⟩ := addFood_running _ _ ha
          obtain ⟨hsn, hp1⟩ := addFood_running_snake _ _ ha
          refine ⟨target, rfl, hon, hns, by rw [hsn, hd0], by rw [hp1, hp0], ?_, ?_⟩
          · rcases hs0 with ⟨hlt, hseg⟩ | ⟨hgt, hseg⟩
            · exact Or.inr ⟨by rw [hread, hf], hlt, by rw [hsn, hseg]⟩
            · exact Or.inl ⟨by rw [hsn, hseg], Or.inr hgt⟩
          · intro a b hab
            rw [hb1, hb0] at hab
            simp only [Board.set_Grid] at hab
            split at hab
            · exact absurd hab (by decide)
            · split at hab
              · exact absurd hab (by decide)
              · exact hab
        · rw [eatFood_empty w target _ hn hread hs hf] at h
          simp only [Outcome.running.injEq] at h
          subst h
          refine ⟨target, rfl, hon, hns, rfl, rfl, Or.inl ⟨rfl, Or.inl ?_⟩, fun _ _ hab => hab⟩
          rw [hread]; intro hc; exact hf (Option.some.inj hc)
    · rw [eatFood_outOfBounds w target hn hon] at h
      cases h

/-- The state a returning tick leaves, from a state whose segments lie on the grid. -/
theorem act_running (w w1 : World) (hgrid : ∀ l ∈ w.snake.Segments, OnGrid l)
    (hact : act w = .running w1) :
    ∃ target, nextHead w.snake = some target ∧ OnGrid target ∧
      w.board.read target ≠ some 's' ∧
      w1.snake.Direction = w.snake.Direction ∧ w1.IsPaused = w.IsPaused ∧
      ((w1.snake.Segments = target :: w.snake.Segments.dropLast ∧
          (w.board.read target ≠ some 'f' ∨ SnakeCapacity < w.snake.Segments.length + 1)) ∨
        (w.board.read target = some 'f' ∧ w.snake.Segments.length + 1 < SnakeCapacity ∧
          w1.snake.Segments = target :: w.snake.Segments)) ∧
      (∀ l ∈ w1.snake.Segments, w1.board.read l = some 's') ∧
      ∀ i j, w1.board.Grid i j = 's' →
        cellLocation i j ∈ w1.snake.Segments ∨
          (cellLocation i j ∉ w.snake.Segments ∧ w.board.Grid i j = 's') := by
  rw [act_eq] at hact
  obtain ⟨w0, he, hs⟩ := andThen_running _ _ _ hact
  obtain ⟨target, hn, hon, hns, hd, hp, hsegs, hmark⟩ := eatFood_running w w0 he
  obtain ⟨h, t, hseg⟩ := segments_of_nextHead hn
  have hsub : ∀ l ∈ w.snake.Segments, l ∈ w0.snake.Segments := by
    intro l hl
    rcases hsegs with ⟨h0, -⟩ | ⟨-, -, h0⟩
    · rw [h0]; exact hl
    · rw [h0]; exact List.mem_append_left _ hl
  have hgrid0 : ∀ l ∈ w0.snake.Segments, OnGrid l := by
    intro l hl
    rcases hsegs with ⟨h0, -⟩ | ⟨-, -, h0⟩
    · rw [h0] at hl; exact hgrid l hl
    · rw [h0] at hl
      rcases List.mem_append.1 hl with hl | hl
      · exact hgrid l hl
      · rw [List.mem_singleton.1 hl]; decide
  obtain ⟨t0, hseg0, hdrop⟩ : ∃ t0, w0.snake.Segments = h :: t0 ∧
      (((h :: t0).dropLast = w.snake.Segments.dropLast ∧
          (w.board.read target ≠ some 'f' ∨ SnakeCapacity < w.snake.Segments.length + 1)) ∨
        (w.board.read target = some 'f' ∧ w.snake.Segments.length + 1 < SnakeCapacity ∧
          (h :: t0).dropLast = w.snake.Segments)) := by
    rcases hsegs with ⟨h0, hc⟩ | ⟨hf, hlt, h0⟩
    · exact ⟨t, by rw [h0, hseg], Or.inl ⟨by rw [hseg], hc⟩⟩
    · refine ⟨t ++ [⟨0, 0⟩], by rw [h0, hseg]; rfl, Or.inr ⟨hf, hlt, ?_⟩⟩
      rw [← List.cons_append, ← hseg, List.dropLast_concat]
  have hn0 : nextHead w0.snake = some target := by
    rw [nextHead_cons w.snake h t hseg] at hn
    rw [nextHead_cons w0.snake h t0 hseg0, hd]
    exact hn
  obtain ⟨b1, hb1, hg1⟩ := shiftAndDraw_onGrid w0 h t0 target hseg0 hn0 hgrid0 hon
  rw [hs] at hb1
  simp only [Outcome.running.injEq] at hb1
  subst hb1
  refine ⟨target, hn, hon, hns, hd, hp, ?_, ?_, ?_⟩
  · rcases hdrop with ⟨h1, hc⟩ | ⟨hf, hlt, h1⟩
    · exact Or.inl ⟨by simp only [h1], hc⟩
    · exact Or.inr ⟨hf, hlt, by simp only [h1]⟩
  · intro l hl
    have hl1 : l ∈ target :: (h :: t0).dropLast := hl
    have hlon : OnGrid l := by
      rcases List.mem_cons.1 hl1 with e | e
      · rw [e]; exact hon
      · exact hgrid0 l (by rw [hseg0]; exact List.dropLast_subset _ e)
    obtain ⟨a, b, hab, -⟩ := cell_of_onGrid hlon
    rw [hab, read_cellLocation]
    show some (b1.Grid a b) = some 's'
    rw [hg1 a b, if_pos (by rw [← hab]; exact hl1)]
  · intro i j hij
    have hij1 : b1.Grid i j = 's' := hij
    rw [hg1 i j] at hij1
    split at hij1
    · rename_i hmem
      exact Or.inl hmem
    · split at hij1
      · exact absurd hij1 (by decide)
      · rename_i hnm
        refine Or.inr ⟨fun hc => hnm ?_, hmark i j hij1⟩
        rw [← hseg0]
        exact hsub _ hc

/-! ## The invariant of reachable states -/

theorem updateDirection_running (ev : Key) (w w1 : World)
    (h : updateDirection ev w = .running w1) :
    w1.board = w.board ∧ w1.snake.Segments = w.snake.Segments ∧
      (w1.snake.Direction = w.snake.Direction ∨ UnitDirection w1.snake.Direction) := by
  cases ev <;> simp only [updateDirection, endGame, Outcome.running.injEq] at h <;>
    first
      | (subst h; exact ⟨rfl, rfl, Or.inl rfl⟩)
      | (subst h; exact ⟨rfl, rfl, Or.inr (by simp [UnitDirection])⟩)
      | cases h

theorem nextHead_ne_head (snake : Snake) (h target : Location) (t : List Location)
    (hseg : snake.Segments = h :: t) (hon : OnGrid h) (hunit : UnitDirection snake.Direction)
    (hn : nextHead snake = some target) : target ≠ h := by
  rw [nextHead_cons snake h t hseg] at hn
  simp only [Option.some.injEq] at hn
  have hb : 0 ≤ h.X ∧ h.X < 20 ∧ 0 ≤ h.Y ∧ h.Y < 20 := hon
  intro hc
  rw [hc] at hn
  have hx : addInt h.X snake.Direction.X = h.X := congrArg Location.X hn
  have hy : addInt h.Y snake.Direction.Y = h.Y := congrArg Location.Y hn
  rcases hunit with hd | hd | hd | hd <;> rw [hd] at hx hy <;>
    simp only [addInt] at hx hy <;> omega

theorem steady_start (rand : List Draw) (board : Board) :
    Steady ⟨board, initializeSnake, false, rand⟩ := by
  refine ⟨by simp [initializeSnake], (by decide : 1 < SnakeCapacity), by simp [initializeSnake],
    ?_, by simp [initializeSnake, UnitDirection], Or.inl rfl⟩
  intro l hl
  simp only [initializeSnake, List.mem_singleton] at hl
  rw [hl]
  decide

theorem steady_key (ev : Key) (w w1 : World) (hw : Steady w)
    (h : updateDirection ev w = .running w1) : Steady w1 := by
  obtain ⟨hb, hs, hd⟩ := updateDirection_running ev w w1 h
  obtain ⟨h1, h2, h3, h4, h5, h6⟩ := hw
  refine ⟨by rw [hs]; exact h1, by rw [hs]; exact h2, by rw [hs]; exact h3,
    by rw [hs]; exact h4, ?_, ?_⟩
  · rcases hd with hd | hd
    · rw [hd]; exact h5
    · exact hd
  · rw [hs, hb]; exact h6

theorem steady_tick (w w1 : World) (hw : Steady w) (h : act w = .running w1) :
    Steady w1 := by
  obtain ⟨h1, h2, h3, h4, h5, h6⟩ := hw
  obtain ⟨target, hn, hon, hns, hd, -, hsegs, hmark, -⟩ := act_running w w1 h4 h
  obtain ⟨hd0, t, hseg⟩ := segments_of_nextHead hn
  have hnot : 2 ≤ w.snake.Segments.length → target ∉ w.snake.Segments := by
    intro hlen hmem
    rcases h6 with h6 | h6
    · omega
    · exact hns (h6 target hmem)
  have hdropsub : ∀ l ∈ w.snake.Segments.dropLast, l ∈ w.snake.Segments :=
    fun l hl => List.dropLast_subset _ hl
  have hlen1 : w.snake.Segments.length = 1 → w.snake.Segments = [hd0] := by
    intro hl
    rw [hseg] at hl ⊢
    simp only [List.length_cons, Nat.add_left_eq_self, List.length_eq_zero] at hl
    rw [hl]
  refine ⟨?_, ?_, ?_, ?_, by rw [hd]; exact h5, Or.inr hmark⟩
  · rcases hsegs with ⟨e, -⟩ | ⟨-, -, e⟩ <;> rw [e] <;> simp
  · rcases hsegs with ⟨e, -⟩ | ⟨-, hlt, e⟩
    · rw [e, List.length_cons, List.length_dropLast]
      have : 0 < w.snake.Segments.length := List.length_pos.2 h1
      omega
    · rw [e, List.length_cons]; exact hlt
  · rcases hsegs with ⟨e, -⟩ | ⟨-, -, e⟩
    · rw [e, List.nodup_cons]
      refine ⟨?_, List.Nodup.sublist (List.dropLast_sublist _) h3⟩
      intro hmem
      by_cases hlen : 2 ≤ w.snake.Segments.length
      · exact hnot hlen (hdropsub _ hmem)
      · have h1len : w.snake.Segments.length = 1 := by
          have : 0 < w.snake.Segments.length := List.length_pos.2 h1
          omega
        rw [hlen1 h1len] at hmem
        simp at hmem
    · rw [e, List.nodup_cons]
      refine ⟨?_, h3⟩
      intro hmem
      by_cases hlen : 2 ≤ w.snake.Segments.length
      · exact hnot hlen hmem
      · have h1len : w.snake.Segments.length = 1 := by
          have : 0 < w.snake.Segments.length := List.length_pos.2 h1
          omega
        have hseg1 := hlen1 h1len
        rw [hseg1, List.mem_singleton] at hmem
        exact nextHead_ne_head w.snake hd0 target t hseg
          (h4 hd0 (by rw [hseg]; exact List.mem_cons_self _ _)) h5 hn hmem
  · intro l hl
    rcases hsegs with ⟨e, -⟩ | ⟨-, -, e⟩ <;> rw [e] at hl <;>
      rcases List.mem_cons.1 hl with hl | hl
    · rw [hl]; exact hon
    · exact h4 l (hdropsub l hl)
    · rw [hl]; exact hon
    · exact h4 l hl

theorem reachable_steady (w : World) (h : Reachable w) : Steady w := by
  induction h with
  | start rand rest board _ => exact steady_start rest board
  | key ev w w1 _ h ih => exact steady_key ev w w1 ih h
  | tick w w1 _ h ih => exact steady_tick w w1 ih h

/-! ## A tick never indexes out of range from a state on the grid -/

theorem addSegment_cases (w : World) :
    (∃ w1, addSegment w = .gameOver w1) ∨
      ∃ w1, addSegment w = .running w1 ∧ w1.board = w.board ∧ w1.rand = w.rand := by
  unfold addSegment
  simp only
  split
  · exact Or.inl ⟨_, rfl⟩
  · refine Or.inr ⟨_, rfl, ?_⟩
    split <;> exact ⟨rfl, rfl⟩

theorem eatFood_total (w : World) (hne : w.snake.Segments ≠ []) :
    (∃ w0, eatFood w = .running w0) ∨ (∃ w1, eatFood w = .gameOver w1) ∨
      (eatFood w = .retrying ∧
        ¬ ∃ d ∈ w.rand, w.board.Grid (gridIndex d.1) (gridIndex d.2) ≠ 's') := by
  obtain ⟨h, t, hseg⟩ : ∃ h t, w.snake.Segments = h :: t := by
    cases hs : w.snake.Segments with
    | nil => exact absurd hs hne
    | cons h t => exact ⟨h, t, rfl⟩
  have hn := nextHead_cons w.snake h t hseg
  generalize (⟨addInt h.X w.snake.Direction.X, addInt h.Y w.snake.Direction.Y⟩ : Location)
    = target at hn
  by_cases hon : OnGrid target
  · obtain ⟨i, j, hij, -⟩ := cell_of_onGrid hon
    have hread : w.board.read target = some (w.board.Grid i j) := by
      rw [hij]; exact read_cellLocation _ _ _
    by_cases hs : w.board.Grid i j = 's'
    · exact Or.inr (Or.inl ⟨w, eatFood_snake w target hn (by rw [hread, hs])⟩)
    · by_cases hf : w.board.Grid i j = 'f'
      · rw [eatFood_food w target i j hn hij hf]
        rcases addSegment_cases { w with board := w.board.set i j ' ' } with
          ⟨w1, h1⟩ | ⟨w1, h1, hb, hr⟩
        · exact Or.inr (Or.inl ⟨w1, by rw [h1]; rfl⟩)
        · rw [h1]
          simp only [Outcome.andThen, addFood]
          cases ha : w1.board.addFood w1.rand with
          | some p => exact Or.inl ⟨_, rfl⟩
          | none =>
            refine Or.inr (Or.inr ⟨rfl, ?_⟩)
            rintro ⟨d, hd, hne1⟩
            have hacc : ∃ d ∈ w1.rand,
                w1.board.Grid (gridIndex d.1) (gridIndex d.2) ≠ 's' := by
              refine ⟨d, by rw [hr]; exact hd, ?_⟩
              rw [hb]
              simp only [Board.set_Grid]
              split
              · decide
              · exact hne1
            obtain ⟨d1, r1, -, -, hsome⟩ := Board.addFood_of_accepted _ _ hacc
            rw [ha] at hsome
            cases hsome
      · exact Or.inl ⟨w, eatFood_empty w target _ hn hread hs hf⟩
  · exact Or.inr (Or.inl ⟨w, eatFood_outOfBounds w target hn hon⟩)

theorem act_total (w : World) (hne : w.snake.Segments ≠ [])
    (hgrid : ∀ l ∈ w.snake.Segments, OnGrid l) :
    (∃ w1, act w = .running w1) ∨ (∃ w1, act w = .gameOver w1) ∨
      (act w = .retrying ∧
        ¬ ∃ d ∈ w.rand, w.board.Grid (gridIndex d.1) (gridIndex d.2) ≠ 's') := by
  rcases eatFood_total w hne with ⟨w0, h0⟩ | ⟨w1, h1⟩ | ⟨h1, h2⟩
  · obtain ⟨target, hn, hon, -, hd, -, hsegs, -⟩ := eatFood_running w w0 h0
    obtain ⟨h, t, hseg⟩ := segments_of_nextHead hn
    have hgrid0 : ∀ l ∈ w0.snake.Segments, OnGrid l := by
      intro l hl
      rcases hsegs with ⟨e, -⟩ | ⟨-, -, e⟩
      · rw [e] at hl; exact hgrid l hl
      · rw [e] at hl
        rcases List.mem_append.1 hl with hl | hl
        · exact hgrid l hl
        · rw [List.mem_singleton.1 hl]; decide
    obtain ⟨t0, hseg0⟩ : ∃ t0, w0.snake.Segments = h :: t0 := by
      rcases hsegs with ⟨e, -⟩ | ⟨-, -, e⟩
      · exact ⟨t, by rw [e, hseg]⟩
      · exact ⟨t ++ [⟨0, 0⟩], by rw [e, hseg]; rfl⟩
    have hn0 : nextHead w0.snake = some target := by
      rw [nextHead_cons w.snake h t hseg] at hn
      rw [nextHead_cons w0.snake h t0 hseg0, hd]
      exact hn
    obtain ⟨b1, hb1, -⟩ := shiftAndDraw_onGrid w0 h t0 target hseg0 hn0 hgrid0 hon
    exact Or.inl ⟨_, by rw [act_eq, h0]; exact hb1⟩
  · exact Or.inr (Or.inl ⟨w1, by rw [act_eq, h1]; rfl⟩)
  · exact Or.inr (Or.inr ⟨by rw [act_eq, h1]; rfl, h2⟩)

theorem act_ne_indexOutOfRange (w : World) (hne : w.snake.Segments ≠ [])
    (hgrid : ∀ l ∈ w.snake.Segments, OnGrid l) : act w ≠ .indexOutOfRange := by
  intro hc
  rcases act_total w hne hgrid with ⟨w1, h⟩ | ⟨w1, h⟩ | ⟨h, -⟩ <;> rw [hc] at h <;> cases h

theorem reachable_eatStartWorld : Reachable eatStartWorld :=
  Reachable.start [(⟨1, by decide⟩, ⟨0, by decide⟩), (⟨5, by decide⟩, ⟨5, by decide⟩)]
    [(⟨5, by decide⟩, ⟨5, by decide⟩)] _ rfl

/-! ## C11, C12: the snake invariants -/

/-- C11. Snake invariant, no overlap: in every state reachable from the initial state
by key events and ticks that return, whatever the unit directions chosen and the
random values, the segments are pairwise distinct cells. -/
theorem reachable_segments_distinct (w : World) (h : Reachable w) :
    w.snake.Segments.Nodup :=
  (reachable_steady w h).2.2.1

/-- C11 at a concrete run: after the first tick of a game whose food lies at (1,0) the
two segments are distinct. -/
theorem reachable_segments_distinct_witness :
    ∃ w1, act eatStartWorld = .running w1 ∧ w1.snake.Segments = [⟨1, 0⟩, ⟨0, 0⟩] ∧
      w1.snake.Segments.Nodup :=
  ⟨_, rfl, rfl,
    reachable_segments_distinct _ (Reachable.tick eatStartWorld _ reachable_eatStartWorld rfl)⟩

/-- C12. Snake invariant, size: in every state reachable from the initial state by key
events and ticks that return, the segment count is at least 1 and at most
`GridSize*GridSize - 1` (`SnakeCapacity`). -/
theorem reachable_segment_count (w : World) (h : Reachable w) :
    1 ≤ w.snake.Segments.length ∧ w.snake.Segments.length ≤ GridSize * GridSize - 1 := by
  obtain ⟨h1, h2, -⟩ := reachable_steady w h
  have : 0 < w.snake.Segments.length := List.length_pos.2 h1
  have h3 : w.snake.Segments.length < GridSize * GridSize - 1 := h2
  omega

/-- C12 at a concrete run: after the first tick of a game whose food lies at (1,0) the
snake has 2 segments. -/
theorem reachable_segment_count_witness :
    ∃ w1, act eatStartWorld = .running w1 ∧ w1.snake.Segments.length = 2 ∧
      1 ≤ w1.snake.Segments.length ∧ w1.snake.Segments.length ≤ GridSize * GridSize - 1 :=
  ⟨_, rfl, rfl,
    reachable_segment_count _ (Reachable.tick eatStartWorld _ reachable_eatStartWorld rfl)⟩

/-! ## Where `endGame` is called -/

theorem andThen_gameOver (o : Outcome) (f : World → Outcome) (w1 : World)
    (h : o.andThen f = .gameOver w1) :
    o = .gameOver w1 ∨ ∃ w0, o = .running w0 ∧ f w0 = .gameOver w1 := by
  cases o with
  | running w0 => exact Or.inr ⟨w0, rfl, h⟩
  | gameOver w0 => exact Or.inl h
  | indexOutOfRange => cases h
  | retrying => cases h

theorem clear_ne_gameOver (w w1 : World) : clear w ≠ .gameOver w1 := by
  unfold clear
  split <;> intro h <;> cases h

theorem redraw_ne_gameOver (w w1 : World) : redraw w ≠ .gameOver w1 := by
  unfold redraw
  split <;> intro h <;> cases h

theorem updateSegments_ne_gameOver (w w1 : World) : updateSegments w ≠ .gameOver w1 := by
  unfold updateSegments
  split
  · intro h; cases h
  · unfold updateHeadLocation
    split <;> intro h <;> cases h

theorem addFood_ne_gameOver (w w1 : World) : addFood w ≠ .gameOver w1 := by
  unfold addFood
  split <;> intro h <;> cases h

theorem shiftAndDraw_ne_gameOver (w w1 : World) : shiftAndDraw w ≠ .gameOver w1 := by
  intro h
  unfold shiftAndDraw at h
  rcases andThen_gameOver _ _ _ h with h1 | ⟨w0, -, h1⟩
  · rcases andThen_gameOver _ _ _ h1 with h2 | ⟨w0, -, h2⟩
    · exact clear_ne_gameOver _ _ h2
    · exact updateSegments_ne_gameOver _ _ h2
  · exact redraw_ne_gameOver _ _ h1

theorem addSegment_gameOver (w w1 : World) (h : addSegment w = .gameOver w1) :
    w.snake.Segments.length + 1 = SnakeCapacity ∧ w1 = w := by
  unfold addSegment at h
  simp only at h
  split at h
  · rename_i heq
    simp only [endGame, Outcome.gameOver.injEq] at h
    rw [if_neg (by omega)] at h
    exact ⟨heq, h.symm⟩
  · cases h

theorem addSegment_full (w : World) (hfull : w.snake.Segments.length + 1 = SnakeCapacity) :
    addSegment w = .gameOver w := by
  unfold addSegment
  simp only
  rw [if_pos hfull, if_neg (by omega)]
  rfl

/-- A tick calls `endGame` only in `eatFood`, under one of the three terminal conditions,
and the snake at that moment is the snake the tick started with. -/
theorem act_gameOver (w w1 : World) (h : act w = .gameOver w1) :
    Terminal w ∧ w1.snake = w.snake := by
  rw [act_eq] at h
  rcases andThen_gameOver _ _ _ h with he | ⟨w0, -, hs⟩
  · cases hn : nextHead w.snake with
    | none => simp [eatFood, hn] at he
    | some target =>
      by_cases hon : OnGrid target
      · obtain ⟨i, j, hij, -⟩ := cell_of_onGrid hon
        have hread : w.board.read target = some (w.board.Grid i j) := by
          rw [hij]; exact read_cellLocation _ _ _
        by_cases hs : w.board.Grid i j = 's'
        · rw [eatFood_snake w target hn (by rw [hread, hs])] at he
          simp only [Outcome.gameOver.injEq] at he
          subst he
          exact ⟨⟨target, hn, Or.inr (Or.inl (by rw [hread, hs]))⟩, rfl⟩
        · by_cases hf : w.board.Grid i j = 'f'
          · rw [eatFood_food w target i j hn hij hf] at he
            rcases andThen_gameOver _ _ _ he with h1 | ⟨w0, -, h1⟩
            · obtain ⟨hfull, hw1⟩ := addSegment_gameOver _ _ h1
              subst hw1
              exact ⟨⟨target, hn, Or.inr (Or.inr ⟨by rw [hread, hf], hfull⟩)⟩, rfl⟩
            · exact absurd h1 (addFood_ne_gameOver _ _)
          · rw [eatFood_empty w target _ hn hread hs hf] at he
            cases he
      · rw [eatFood_outOfBounds w target hn hon] at he
        simp only [Outcome.gameOver.injEq] at he
        subst he
        exact ⟨⟨target, hn, Or.inl hon⟩, rfl⟩
  · exact absurd hs (shiftAndDraw_ne_gameOver _ _)

/-- Under each terminal condition the tick calls `endGame` with the snake unchanged. -/
theorem act_terminal (w : World) (h : Terminal w) :
    ∃ w1, act w = .gameOver w1 ∧ w1.snake = w.snake := by
  obtain ⟨target, hn, hc⟩ := h
  rcases hc with hoff | hs | ⟨hf, hfull⟩
  · exact ⟨w, by rw [act_eq, eatFood_outOfBounds w target hn hoff]; rfl, rfl⟩
  · exact ⟨w, by rw [act_eq, eatFood_snake w target hn hs]; rfl, rfl⟩
  · obtain ⟨i, j, hij, -⟩ := cell_of_onGrid (onGrid_of_read hf)
    have hfood : w.board.Grid i j = 'f' := by
      rw [hij, read_cellLocation] at hf
      exact Option.some.inj hf
    refine ⟨{ w with board := w.board.set i j ' ' }, ?_, rfl⟩
    rw [act_eq, eatFood_food w target i j hn hij hfood,
      addSegment_full { w with board := w.board.set i j ' ' } hfull]
    rfl

/-- Eating from a state on the grid with room to grow: the tick returns with the next
head cell put in front of all the old segments. -/
theorem act_eat_running (w : World) (target : Location)
    (hgrid : ∀ l ∈ w.snake.Segments, OnGrid l)
    (hn : nextHead w.snake = some target) (hfood : w.board.read target = some 'f')
    (hlt : w.snake.Segments.length + 1 < SnakeCapacity)
    (hrand : ∃ d ∈ w.rand, w.board.Grid (gridIndex d.1) (gridIndex d.2) ≠ 's') :
    ∃ w1, act w = .running w1 ∧ w1.snake.Segments = target :: w.snake.Segments := by
  obtain ⟨h, t, hseg⟩ := segments_of_nextHead hn
  have hne : w.snake.Segments ≠ [] := by rw [hseg]; simp
  rcases act_total w hne hgrid with ⟨w1, h1⟩ | ⟨w1, h1⟩ | ⟨-, h2⟩
  · refine ⟨w1, h1, ?_⟩
    obtain ⟨target1, hn1, -, -, -, -, hsegs, -⟩ := act_running w w1 hgrid h1
    rw [hn] at hn1
    simp only [Option.some.injEq] at hn1
    subst hn1
    rcases hsegs with ⟨-, hc | hc⟩ | ⟨-, -, e⟩
    · exact absurd hfood hc
    · omega
    · exact e
  · obtain ⟨⟨target1, hn1, hc⟩, -⟩ := act_gameOver w w1 h1
    rw [hn] at hn1
    simp only [Option.some.injEq] at hn1
    subst hn1
    rcases hc with hoff | hs | ⟨-, hfull⟩
    · exact absurd (onGrid_of_read hfood) hoff
    · rw [hfood] at hs; exact absurd hs (by decide)
    · omega
  · exact absurd hrand h2

/-! ## Board full -/

/-- Eating from a state whose segments all lie on the grid: if the next head cell is on
the grid and holds food, the tick calls `endGame` if and only if growing by one segment
makes the count reach `SnakeCapacity`; for every smaller snake, and every list of
random values containing a value that names a non-snake cell, the same tick returns
with the snake grown by one segment. -/
theorem act_board_full_onGrid (w : World) (target : Location)
    (hgrid : ∀ l ∈ w.snake.Segments, OnGrid l)
    (hn : nextHead w.snake = some target) (hon : OnGrid target)
    (hfood : w.board.read target = some 'f') :
    ((∃ w1, act w = .gameOver w1) ↔ w.snake.Segments.length + 1 = SnakeCapacity) ∧
      (w.snake.Segments.length + 1 < SnakeCapacity →
        (∃ d ∈ w.rand, w.board.Grid (gridIndex d.1) (gridIndex d.2) ≠ 's') →
        ∃ w1, act w = .running w1 ∧
          w1.snake.Segments.length = w.snake.Segments.length + 1) := by
  refine ⟨⟨?_, ?_⟩, ?_⟩
  · rintro ⟨w1, h1⟩
    obtain ⟨⟨target1, hn1, hc⟩, -⟩ := act_gameOver w w1 h1
    rw [hn] at hn1
    simp only [Option.some.injEq] at hn1
    subst hn1
    rcases hc with hoff | hs | ⟨-, hfull⟩
    · exact absurd hon hoff
    · rw [hfood] at hs; exact absurd hs (by decide)
    · exact hfull
  · intro hfull
    obtain ⟨w1, h1, -⟩ := act_terminal w ⟨target, hn, Or.inr (Or.inr ⟨hfood, hfull⟩)⟩
    exact ⟨w1, h1⟩
  · intro hlt hrand
    obtain ⟨w1, h1, e⟩ := act_eat_running w target hgrid hn hfood hlt hrand
    exact ⟨w1, h1, by rw [e, List.length_cons]⟩

/-! ## C14: the score at the end of the game -/

/-- C14. The score reported when the game ends: under each terminal condition of a tick
(out of bounds, self-collision, board full) `endGame` is called with the segments
the tick started with, and so it is on the quit key; a tick calls `endGame` under
these conditions only; `printScore` then reports `100 * (len(Segments) - 1)` for the
segment count at the start of the terminal tick. -/
theorem endGame_score (w : World) :
    (Terminal w → ∃ w1, act w = .gameOver w1 ∧ w1.snake.Segments = w.snake.Segments ∧
        printScore w1.snake = 100 * ((w.snake.Segments.length : Int) - 1)) ∧
      (∃ w1, updateDirection .KeyCtrlC w = .gameOver w1 ∧
        w1.snake.Segments = w.snake.Segments ∧
        printScore w1.snake = 100 * ((w.snake.Segments.length : Int) - 1)) ∧
      ∀ w1, act w = .gameOver w1 → Terminal w ∧ w1.snake.Segments = w.snake.Segments ∧
        printScore w1.snake = 100 * ((w.snake.Segments.length : Int) - 1) := by
  refine ⟨?_, ⟨w, rfl, rfl, rfl⟩, ?_⟩
  · intro ht
    obtain ⟨w1, h1, hs⟩ := act_terminal w ht
    exact ⟨w1, h1, by rw [hs], by rw [printScore, hs]⟩
  · intro w1 h1
    obtain ⟨ht, hs⟩ := act_gameOver w w1 h1
    exact ⟨ht, by rw [hs], by rw [printScore, hs]⟩

/-- C14 at concrete states: the snake running into the wall ends with score 0, the
three-segment snake running into itself with score 200. -/
theorem endGame_score_witness :
    (∃ w1, act wallWorld = .gameOver w1 ∧ w1.snake.Segments = wallWorld.snake.Segments ∧
        printScore w1.snake = 100 * ((1 : Int) - 1)) ∧
      ∃ w1, act bentWorld = .gameOver w1 ∧ w1.snake.Segments = bentWorld.snake.Segments ∧
        printScore w1.snake = 100 * ((3 : Int) - 1) :=
  ⟨(endGame_score wallWorld).1 ⟨⟨0, -1⟩, by decide, Or.inl (by decide)⟩,
    (endGame_score bentWorld).1 ⟨⟨2, 1⟩, by decide, Or.inr (Or.inl (by decide))⟩⟩

/-! ## C15: the straight run into the wall -/

theorem straight_step (w : World) (k : Nat) (hk : k + 1 < GridSize)
    (hs : w.snake = ⟨[⟨(k : Int), 0⟩], ⟨1, 0⟩⟩)
    (hcol : ∀ i : Fin GridSize, k < i.val →
      w.board.Grid i 0 ≠ 's' ∧ w.board.Grid i 0 ≠ 'f') :
    ∃ w1, act w = .running w1 ∧ w1.snake = ⟨[⟨((k + 1 : Nat) : Int), 0⟩], ⟨1, 0⟩⟩ ∧
      ∀ i : Fin GridSize, k + 1 < i.val →
        w1.board.Grid i 0 ≠ 's' ∧ w1.board.Grid i 0 ≠ 'f' := by
  have hk20 : k + 1 < 20 := hk
  have hseg : w.snake.Segments = (⟨(k : Int), 0⟩ : Location) :: [] := by rw [hs]
  have hdir : w.snake.Direction = ⟨1, 0⟩ := by rw [hs]
  have hn : nextHead w.snake = some ⟨((k + 1 : Nat) : Int), 0⟩ := by
    rw [nextHead_cons w.snake _ _ hseg, hdir]
    simp only [Option.some.injEq, Location.mk.injEq]
    constructor
    · rw [addInt_eq_add] <;> push_cast <;> omega
    · rfl
  have htarget : (⟨((k + 1 : Nat) : Int), 0⟩ : Location) = cellLocation ⟨k + 1, hk⟩ 0 := rfl
  have hon : OnGrid ⟨((k + 1 : Nat) : Int), 0⟩ := by
    rw [htarget]; exact cellLocation_onGrid _ _
  have hgrid : ∀ l ∈ w.snake.Segments, OnGrid l := by
    intro l hl
    rw [hseg, List.mem_singleton] at hl
    rw [hl]
    have : (⟨(k : Int), 0⟩ : Location) = cellLocation ⟨k, by omega⟩ 0 := rfl
    rw [this]; exact cellLocation_onGrid _ _
  obtain ⟨hns, hnf⟩ := hcol ⟨k + 1, hk⟩ (by simp)
  have hread : w.board.read ⟨((k + 1 : Nat) : Int), 0⟩ =
      some (w.board.Grid ⟨k + 1, hk⟩ 0) := by
    rw [htarget]; exact read_cellLocation _ _ _
  have he : eatFood w = .running w := eatFood_empty w _ _ hn hread hns hnf
  obtain ⟨b1, hb1, hg1⟩ := shiftAndDraw_onGrid w _ [] _ hseg hn hgrid hon
  refine ⟨_, by rw [act_eq, he]; exact hb1, ?_, ?_⟩
  · simp only [hdir, List.dropLast]
  · intro i hi
    have hnot1 : cellLocation i 0 ∉
        (⟨((k + 1 : Nat) : Int), 0⟩ : Location) :: [(⟨(k : Int), 0⟩ : Location)].dropLast := by
      simp only [List.dropLast, List.mem_singleton, cellLocation, Location.mk.injEq]
      push_cast
      omega
    have hnot2 : cellLocation i 0 ∉ [(⟨(k : Int), 0⟩ : Location)] := by
      simp only [List.mem_singleton, cellLocation, Location.mk.injEq]
      omega
    show b1.Grid i 0 ≠ 's' ∧ b1.Grid i 0 ≠ 'f'
    rw [hg1 i 0, if_neg hnot1, if_neg hnot2]
    exact hcol i (by omega)

theorem straight_ticks (w : World) (hs : w.snake = ⟨[⟨0, 0⟩], ⟨1, 0⟩⟩)
    (hcol : ∀ i : Fin GridSize, w.board.Grid i 0 ≠ 's' ∧ w.board.Grid i 0 ≠ 'f')
    (k : Nat) (hk : k < GridSize) :
    ∃ wk, ticks k w = .running wk ∧ wk.snake = ⟨[⟨(k : Int), 0⟩], ⟨1, 0⟩⟩ ∧
      ∀ i : Fin GridSize, k < i.val →
        wk.board.Grid i 0 ≠ 's' ∧ wk.board.Grid i 0 ≠ 'f' := by
  induction k with
  | zero => exact ⟨w, rfl, hs, fun i _ => hcol i⟩
  | succ k ih =>
    obtain ⟨wk, h1, h2, h3⟩ := ih (by omega)
    obtain ⟨w1, h4, h5, h6⟩ := straight_step wk k hk h2 h3
    exact ⟨w1, by simp only [ticks, h1, Outcome.andThen]; exact h4, h5, h6⟩

/-- C15. Straight run into the wall: from the state `main` builds (one segment at
(0,0), direction (1,0)) with the food outside column 0, for every `k` with
`0 ≤ k ≤ GridSize - 1` the first `k` ticks with no key event all return, leaving the
head at (k,0) and the length 1; the tick after the head reaches (GridSize-1,0) finds
the next head cell (GridSize,0) out of bounds and calls `endGame` with score 0. -/
theorem straight_run (rand rest : List Draw) (board : Board)
    (hinit : initializeBoard rand = some (board, rest))
    (hfood : ∀ i : Fin GridSize, board.Grid i 0 ≠ 'f') :
    (∀ k, k ≤ GridSize - 1 →
      ∃ wk, ticks k ⟨board, initializeSnake, false, rest⟩ = .running wk ∧
        wk.snake.Segments = [⟨(k : Int), 0⟩]) ∧
      ∃ w1, ticks GridSize ⟨board, initializeSnake, false, rest⟩ = .gameOver w1 ∧
        w1.snake.Segments = [⟨((GridSize - 1 : Nat) : Int), 0⟩] ∧
        nextHead w1.snake = some ⟨(GridSize : Int), 0⟩ ∧ ¬ OnGrid ⟨(GridSize : Int), 0⟩ ∧
        printScore w1.snake = 0 := by
  have hcol : ∀ i : Fin GridSize, board.Grid i 0 ≠ 's' ∧ board.Grid i 0 ≠ 'f' := by
    intro i
    refine ⟨?_, hfood i⟩
    obtain ⟨d, -, -, hb⟩ := Board.addFood_some _ _ _ _ hinit
    rw [hb, Board.set_Grid]
    split
    · decide
    · show Char.ofNat 0 ≠ 's'
      decide
  have hrun := straight_ticks ⟨board, initializeSnake, false, rest⟩ rfl hcol
  refine ⟨?_, ?_⟩
  · intro k hk
    have hk20 : k ≤ 20 - 1 := hk
    have hlt : k < GridSize := by
      show k < 20
      omega
    obtain ⟨wk, h1, h2, -⟩ := hrun k hlt
    exact ⟨wk, h1, by rw [h2]⟩
  · obtain ⟨wk, h1, h2, -⟩ := hrun (GridSize - 1) (by decide)
    have hn : nextHead wk.snake = some ⟨(GridSize : Int), 0⟩ := by
      rw [h2]; decide
    have hoff : ¬ OnGrid ⟨(GridSize : Int), 0⟩ := by decide
    refine ⟨wk, ?_, by rw [h2], hn, hoff, by rw [h2]; decide⟩
    show (ticks (GridSize - 1) ⟨board, initializeSnake, false, rest⟩).andThen act = _
    rw [h1]
    show act wk = _
    rw [act_eq, eatFood_outOfBounds wk _ hn hoff]
    rfl

/-- C15 at a concrete game: the food is drawn at (5,5); after 19 ticks the head is at
(19,0), and the 20th tick ends the game with score 0. -/
theorem straight_run_witness :
    (∀ k, k ≤ GridSize - 1 →
      ∃ wk, ticks k ⟨(⟨fun _ _ => Char.ofNat 0⟩ : Board).set 5 5 'f', initializeSnake,
          false, []⟩ = .running wk ∧
        wk.snake.Segments = [⟨(k : Int), 0⟩]) ∧
      ∃ w1, ticks GridSize ⟨(⟨fun _ _ => Char.ofNat 0⟩ : Board).set 5 5 'f',
          initializeSnake, false, []⟩ = .gameOver w1 ∧
        w1.snake.Segments = [⟨((GridSize - 1 : Nat) : Int), 0⟩] ∧
        nextHead w1.snake = some ⟨(GridSize : Int), 0⟩ ∧ ¬ OnGrid ⟨(GridSize : Int), 0⟩ ∧
        printScore w1.snake = 0 :=
  straight_run [(⟨5, by decide⟩, ⟨5, by decide⟩)] [] _ rfl (by decide)

/-! ## C16: pause -/

theorem pauseGame_pauseGame (w : World) : pauseGame (pauseGame w) = w := by
  cases w
  simp [pauseGame]

theorem refreshScreen_paused (w : World) (hp : w.IsPaused = true) :
    refreshScreen w = .running w := by
  simp [refreshScreen, hp]

theorem iterations_paused (w : World) (hp : w.IsPaused = true) (n : Nat) :
    iterations n w = .running w := by
  induction n with
  | zero => rfl
  | succ n ih =>
    simp only [iterations, ih, Outcome.andThen]
    exact refreshScreen_paused w hp

/-- C16. Pause is a round trip and a paused tick is a no-op: for every state two calls
of `pauseGame` give the state back; while `IsPaused` is set an iteration of the loop
of `refreshScreen` returns the state unchanged; so from a running state, pausing,
letting the loop go round `n` times and pausing again gives back the very state, board
and snake included. -/
theorem pause_round_trip (w : World) (n : Nat) :
    pauseGame (pauseGame w) = w ∧
      (w.IsPaused = true → refreshScreen w = .running w) ∧
      (w.IsPaused = false →
        ∃ w1, iterations n (pauseGame w) = .running w1 ∧ pauseGame w1 = w) := by
  refine ⟨pauseGame_pauseGame w, refreshScreen_paused w, ?_⟩
  intro hp
  refine ⟨pauseGame w, iterations_paused _ ?_ n, pauseGame_pauseGame w⟩
  simp [pauseGame, hp]

/-- C16 at a concrete state: the snake at (2,2) is paused for 3 rounds of the loop and
resumed; the state is the one before the pause. -/
theorem pause_round_trip_witness :
    ∃ w1, iterations 3 (pauseGame plainWorld) = .running w1 ∧ pauseGame w1 = plainWorld :=
  (pause_round_trip plainWorld 3).2.2 rfl

/-! ## C17: arrow keys -/

/-- C17. Arrow keys set the direction to the corresponding unit vector (row, column):
whatever the state, ArrowRight yields (0,1), ArrowLeft (0,-1), ArrowUp (-1,0) and
ArrowDown (1,0), leaving the segments and the board as they were; hence in every state
reachable from the initial one the direction is one of the four unit vectors. -/
theorem arrow_keys_set_direction (w : World) :
    (∃ w1, updateDirection .KeyArrowRight w = .running w1 ∧ w1.snake.Direction = ⟨0, 1⟩ ∧
        w1.snake.Segments = w.snake.Segments ∧ w1.board = w.board) ∧
      (∃ w1, updateDirection .KeyArrowLeft w = .running w1 ∧ w1.snake.Direction = ⟨0, -1⟩ ∧
        w1.snake.Segments = w.snake.Segments ∧ w1.board = w.board) ∧
      (∃ w1, updateDirection .KeyArrowUp w = .running w1 ∧ w1.snake.Direction = ⟨-1, 0⟩ ∧
        w1.snake.Segments = w.snake.Segments ∧ w1.board = w.board) ∧
      (∃ w1, updateDirection .KeyArrowDown w = .running w1 ∧ w1.snake.Direction = ⟨1, 0⟩ ∧
        w1.snake.Segments = w.snake.Segments ∧ w1.board = w.board) ∧
      (Reachable w → UnitDirection w.snake.Direction) :=
  ⟨⟨_, rfl, rfl, rfl, rfl⟩, ⟨_, rfl, rfl, rfl, rfl⟩, ⟨_, rfl, rfl, rfl, rfl⟩,
    ⟨_, rfl, rfl, rfl, rfl⟩, fun h => (reachable_steady w h).2.2.2.2.1⟩

/-- C17 at a concrete run: in the state `main` builds the direction is a unit vector. -/
theorem arrow_keys_set_direction_witness : UnitDirection eatStartWorld.snake.Direction :=
  (arrow_keys_set_direction eatStartWorld).2.2.2.2 reachable_eatStartWorld

/-! ## C19: the grid follows the snake -/

/-- C19. Grid and snake stay in sync: from a state in which every cell marked `'s'` is
a segment cell and all segments lie on the grid, after every tick that returns a grid
cell is marked `'s'` if and only if it is the location of a segment of the snake as it
stands after the tick; and such a tick does return or end the game whenever there is a
head and the random values contain one that names a non-snake cell. -/
theorem act_keeps_marks (w : World) (hstale : NoStaleMark w)
    (hgrid : ∀ l ∈ w.snake.Segments, OnGrid l) :
    (∀ w1, act w = .running w1 →
      ∀ i j, w1.board.Grid i j = 's' ↔ cellLocation i j ∈ w1.snake.Segments) ∧
      (w.snake.Segments ≠ [] →
        (∃ d ∈ w.rand, w.board.Grid (gridIndex d.1) (gridIndex d.2) ≠ 's') →
        (∃ w1, act w = .running w1) ∨ ∃ w1, act w = .gameOver w1) := by
  refine ⟨?_, ?_⟩
  · intro w1 h1 i j
    obtain ⟨target, -, -, -, -, -, -, hmark, hback⟩ := act_running w w1 hgrid h1
    constructor
    · intro hs
      rcases hback i j hs with hm | ⟨hnot, hold⟩
      · exact hm
      · exact absurd (hstale i j hold) hnot
    · intro hm
      have := hmark _ hm
      rw [read_cellLocation] at this
      exact Option.some.inj this
  · intro hne hrand
    rcases act_total w hne hgrid with h | h | ⟨-, h⟩
    · exact Or.inl h
    · exact Or.inr h
    · exact absurd hrand h

/-- C19 at a concrete state: after the snake at (2,2) moves to (2,3), the only cell
marked `'s'` is (2,3). -/
theorem act_keeps_marks_witness :
    ∃ w1, act plainWorld = .running w1 ∧
      ∀ i j, w1.board.Grid i j = 's' ↔ cellLocation i j ∈ w1.snake.Segments :=
  ⟨_, rfl, (act_keeps_marks plainWorld (by decide) (by decide)).1 _ rfl⟩

/-! ## C20: no access out of range -/

/-- C20. No out-of-range access: in every state reachable from the initial state by
key events and ticks that return, every segment has both coordinates in
`[0, GridSize)` and the segment count is below the capacity of the slice, so neither a
tick nor an iteration of the game loop stops with "index out of range". -/
theorem reachable_in_range (w : World) (h : Reachable w) :
    (∀ l ∈ w.snake.Segments, OnGrid l) ∧ w.snake.Segments.length + 1 ≤ SnakeCapacity ∧
      act w ≠ .indexOutOfRange ∧ refreshScreen w ≠ .indexOutOfRange := by
  obtain ⟨h1, h2, -, h4, -⟩ := reachable_steady w h
  have hact := act_ne_indexOutOfRange w h1 h4
  refine ⟨h4, h2, hact, ?_⟩
  unfold refreshScreen
  split
  · split
    · rename_i hnil
      exact absurd hnil h1
    · exact hact
  · intro hc; cases hc

/-- C20 at a concrete run: after the first tick of a game whose food lies at (1,0), both
segments lie on the grid and the next tick does not index out of range. -/
theorem reachable_in_range_witness :
    ∃ w1, act eatStartWorld = .running w1 ∧
      (∀ l ∈ w1.snake.Segments, OnGrid l) ∧ w1.snake.Segments.length + 1 ≤ SnakeCapacity ∧
      act w1 ≠ .indexOutOfRange ∧ refreshScreen w1 ≠ .indexOutOfRange :=
  ⟨_, rfl, reachable_in_range _ (Reachable.tick eatStartWorld _ reachable_eatStartWorld rfl)⟩

/-! ## C2, C13: eating in a state of the game -/

/-- C2. Eating grows the snake by exactly one: in every state the game can reach with
fewer than `GridSize*GridSize-2` segments whose next head cell is on the grid and
holds food, and for every list of random values that contains a value naming a
non-snake cell, one tick returns with the segments equal to the next head cell
followed by all the old segments in their old order, so the segment count increases
by exactly 1 and the score by exactly 100. -/
theorem act_eat_grows (w : World) (target : Location) (hreach : Reachable w)
    (hlen : w.snake.Segments.length < GridSize * GridSize - 2)
    (hn : nextHead w.snake = some target) (hon : OnGrid target)
    (hfood : w.board.read target = some 'f')
    (hrand : ∃ d ∈ w.rand, w.board.Grid (gridIndex d.1) (gridIndex d.2) ≠ 's') :
    ∃ w1, act w = .running w1 ∧
      w1.snake.Segments = target :: w.snake.Segments ∧
      w1.snake.Segments.length = w.snake.Segments.length + 1 ∧
      printScore w1.snake = printScore w.snake + 100 :=
  act_eat_grows_onGrid w target (reachable_steady w hreach).2.2.2.1 hlen hn hon hfood hrand

/-- C2 at a concrete game: the food was drawn at (1,0), right below the head; the first
tick eats it, the snake becomes (1,0),(0,0) and the score goes from 0 to 100. -/
theorem act_eat_grows_witness :
    ∃ w1, act eatStartWorld = .running w1 ∧
      w1.snake.Segments = [⟨1, 0⟩, ⟨0, 0⟩] ∧
      w1.snake.Segments.length = 1 + 1 ∧
      printScore w1.snake = 0 + 100 :=
  act_eat_grows eatStartWorld ⟨1, 0⟩ reachable_eatStartWorld (by decide) (by decide)
    (by decide) (by decide) (by decide)

/-- C13. Board-full is a terminal condition of its own: in every state the game can
reach whose next head cell is on the grid and holds food, the tick calls `endGame` if
and only if growing by one segment makes the segment count reach `SnakeCapacity`
(`GridSize*GridSize - 1`); for every smaller snake, and every list of random values
containing a value that names a non-snake cell, the same tick returns with the snake
grown by one segment: the game continues. -/
theorem act_board_full (w : World) (target : Location) (hreach : Reachable w)
    (hn : nextHead w.snake = some target) (hon : OnGrid target)
    (hfood : w.board.read target = some 'f') :
    ((∃ w1, act w = .gameOver w1) ↔ w.snake.Segments.length + 1 = SnakeCapacity) ∧
      (w.snake.Segments.length + 1 < SnakeCapacity →
        (∃ d ∈ w.rand, w.board.Grid (gridIndex d.1) (gridIndex d.2) ≠ 's') →
        ∃ w1, act w = .running w1 ∧
          w1.snake.Segments.length = w.snake.Segments.length + 1) :=
  act_board_full_onGrid w target (reachable_steady w hreach).2.2.2.1 hn hon hfood

/-- C13 at a concrete game: the snake of length 1 is smaller than the capacity, so
eating the food at (1,0) on the first tick grows it to 2 segments and the game goes
on; the tick is not a game over. -/
theorem act_board_full_witness :
    (∃ w1, act eatStartWorld = .running w1 ∧ w1.snake.Segments.length = 1 + 1) ∧
      ¬ ∃ w1, act eatStartWorld = .gameOver w1 :=
  ⟨(act_board_full eatStartWorld ⟨1, 0⟩ reachable_eatStartWorld (by decide) (by decide)
      (by decide)).2 (by decide) (by decide),
    fun h => absurd ((act_board_full eatStartWorld ⟨1, 0⟩ reachable_eatStartWorld (by decide)
      (by decide) (by decide)).1.1 h) (by decide)⟩

end CliSnake
